import Mathlib

/-!
# uniprof: a shallow embedding of `src/uniprof.c`

The stack sampler is embedded as pure functions over explicit state.

* The hypervisor library (`xenctrl.h`) and the C library are outside the
  program.  Their answers are taken from an environment record (`Xen`,
  `Tick`); the calls the program makes are recorded in order, each `memcpy`
  of the unwinder with the address and length it reads.
* `time_t`, `long` and the guest words are integers; the places where the C
  types wrap (`unsigned int vcpu`, `unsigned long long missed_deadlines`,
  the conversion of `tv_nsec` to `unsigned long`) carry an explicit modulus.
  Host pointers are natural numbers, 0 being `NULL`.
* A run either returns, dies on a hardware exception (a read through a null
  pointer or outside readable memory, a division by zero), or exhausts the
  step budget that bounds the two loops with no bound of their own.
* Diagnostics on `stdout`/`stderr` and the `DBG`/`VERBOSE` macros (both off
  by default) are not part of the state, the one exception being the
  missed-deadline warning, which is recorded because it decides what the
  tick does with `ts`.
-/

namespace Uniprof

/-! ## Time utilities (uniprof.c 31-82) -/

/-- The C `struct timespec`: seconds and nanoseconds. -/
structure Timespec where
  tv_sec : Int
  tv_nsec : Int
  deriving DecidableEq, Repr

/-- The macro `timespecadd(a, b, result)` (lines 35-43). -/
def timespecadd (a b : Timespec) : Timespec :=
  let sec := a.tv_sec + b.tv_sec
  let nsec := a.tv_nsec + b.tv_nsec
  if nsec ≥ 1000000000 then ⟨sec + 1, nsec - 1000000000⟩ else ⟨sec, nsec⟩

/-- The macro `timespecsub(a, b, result)` (lines 46-54).  Each field of the
result is computed from the same field of `a` and `b` only, so the uses with
the result aliased to an argument, as in `timespecsub(&ts, &end, &ts)`, read
the original values. -/
def timespecsub (a b : Timespec) : Timespec :=
  let sec := a.tv_sec - b.tv_sec
  let nsec := a.tv_nsec - b.tv_nsec
  if nsec < 0 then ⟨sec - 1, nsec + 1000000000⟩ else ⟨sec, nsec⟩

/-- The macro `timespeccmp(a, b, <)` (lines 57-60). -/
def timespeccmp_lt (a b : Timespec) : Bool :=
  if a.tv_sec = b.tv_sec then decide (a.tv_nsec < b.tv_nsec)
  else decide (a.tv_sec < b.tv_sec)

/-- The macro `timespecnegtopos(a, b)` (lines 65-69). -/
def timespecnegtopos (a : Timespec) : Timespec :=
  ⟨-(a.tv_sec + 1), 1000000000 - a.tv_nsec⟩

/-- A clock reading as `clock_gettime` hands it out: `0 ≤ tv_nsec < 10^9`. -/
def Timespec.normalized (t : Timespec) : Prop :=
  0 ≤ t.tv_nsec ∧ t.tv_nsec < 1000000000

instance (t : Timespec) : Decidable t.normalized := by
  unfold Timespec.normalized; exact inferInstance

/-- The instant or duration a timespec stands for, in nanoseconds. -/
def Timespec.nanos (t : Timespec) : Int :=
  t.tv_sec * 1000000000 + t.tv_nsec

/-- What `main` does in its sampling loop, in order. -/
inductive Action where
  /-- `clock_gettime(CLOCK_MONOTONIC, ..)` -/
  | clock_gettime
  /-- the call `do_stack_trace(..)` -/
  | do_stack_trace
  /-- `fprintf(stderr, "we're falling behind by ..")` with the printed time -/
  | warn (behind : Timespec)
  /-- `busywait(nsecs)` -/
  | busywait (nsecs : Nat)
  /-- `nanosleep(&ts, NULL)` with the requested duration -/
  | nanosleep (req : Timespec)
  deriving DecidableEq, Repr

/-- Is the action a blocking sleep. -/
def Action.isSleep : Action → Bool
  | .nanosleep _ => true
  | _ => false

/-- Is the action a busy-wait. -/
def Action.isBusywait : Action → Bool
  | .busywait _ => true
  | _ => false

/-- The period `sleep` of line 299: `tv_sec = 0`, `tv_nsec = 1000000000/freq`
(an unsigned division; `freq = 0` traps and is handled by the caller). -/
def period (freq : Nat) : Timespec :=
  ⟨0, ((1000000000 / freq : Nat) : Int)⟩

/-- Lines 363-383 of `main`: the end of one tick, from the two clock readings
`begin` and `end` to the new value of `missed_deadlines` and the actions
taken.  `busywait` takes an `unsigned long`, to which `ts.tv_nsec` is
converted. -/
def tick_wait (sleep minsleep : Timespec) (warn_missed_deadlines : Bool)
    (begin_ end_ : Timespec) (missed_deadlines : Nat) : Nat × List Action :=
  let ts := timespecadd begin_ sleep
  if timespeccmp_lt ts end_ then
    ((missed_deadlines + 1) % 2 ^ 64,
      if warn_missed_deadlines then
        [Action.warn (timespecnegtopos (timespecsub ts end_))]
      else [])
  else
    let ts := timespecsub ts end_
    if timespeccmp_lt ts minsleep then
      (missed_deadlines, [Action.busywait (ts.tv_nsec % 2 ^ 64).toNat])
    else
      (missed_deadlines, [Action.nanosleep ts])

/-- The calibration `measure_overheads` (lines 84-111).  `clock` lists the
readings of `clock_gettime` in the order the calls are made: round `i` of the
first loop reads `clock (2*i)` and `clock (2*i+1)` around `nanosleep`, round
`i` of the second loop reads `clock (2*rounds + 2*i)` and the one after it.
The sums are `unsigned long long`.  Returns `(gettime_overhead, minsleep)`. -/
def measure_overheads (clock : Nat → Timespec) (rounds : Nat) : Timespec × Timespec :=
  let diff (k : Nat) : Timespec := timespecsub (clock (k + 1)) (clock k)
  let acc (f : Timespec → Int) (off : Nat) : Nat :=
    (List.range rounds).foldl
      (fun s i => (s + ((f (diff (off + 2 * i))) % 2 ^ 64).toNat) % 2 ^ 64) 0
  let sleepsecs := acc Timespec.tv_sec 0
  let sleepnanosecs := acc Timespec.tv_nsec 0
  let timesecs := acc Timespec.tv_sec (2 * rounds)
  let timenanosecs := acc Timespec.tv_nsec (2 * rounds)
  (⟨(timesecs / rounds : Nat), (timenanosecs / rounds : Nat)⟩,
   ⟨(((sleepsecs + timesecs) % 2 ^ 64) / rounds : Nat),
    (((sleepnanosecs + timenanosecs) % 2 ^ 64) / rounds : Nat)⟩)

/-! ## The environment: hypervisor answers and process state -/

/-- The register snapshot `vcpu_guest_context_any_t` filled in by
`xc_vcpu_getcontext`, reduced to the four fields the program reads:
`x32.user_regs.ebp`, `x32.user_regs.eip`, `x64.user_regs.rbp` and
`x64.user_regs.rip`. -/
structure vcpu_guest_context_any_t where
  x32_ebp : Nat
  x32_eip : Nat
  x64_rbp : Nat
  x64_rip : Nat
  deriving DecidableEq, Repr

/-- The answers of the outside world while the guest is paused.
* `vcpu_getcontext vcpu` is the return value of `xc_vcpu_getcontext` and the
  snapshot it stores;
* `malloc` tells whether `malloc` returns a non-null pointer;
* `translate_foreign_address vcpu base` is the machine frame number returned
  by `xc_translate_foreign_address` (0 when the translation fails);
* `map_foreign_range mfn` is the host address returned by
  `xc_map_foreign_range` (0 is `NULL`);
* `host a` is the byte readable at host address `a`, `none` where a read
  traps. -/
structure Xen where
  vcpu_getcontext : Nat → Int × vcpu_guest_context_any_t
  malloc : Bool
  translate_foreign_address : Nat → Nat → Nat
  map_foreign_range : Nat → Nat
  host : Nat → Option Nat

/-- The calls made below `do_stack_trace`, in the order they are made. -/
inductive Call where
  | xc_domain_pause
  | xc_domain_unpause
  /-- `do_stack_trace` calls `walk_stack` for this vcpu -/
  | walk_stack (vcpu : Nat)
  | xc_vcpu_getcontext (vcpu : Nat)
  | malloc
  | xc_translate_foreign_address (vcpu base : Nat)
  | xc_map_foreign_range (mfn : Nat)
  /-- `memcpy(.., src, n)`: a read of `n` bytes at host address `src` -/
  | memcpy (src n : Nat)
  deriving DecidableEq, Repr

/-- One `mapped_page_t` (lines 21-26); the `next` link is the list order. -/
structure mapped_page where
  base : Nat
  mfn : Nat
  buf : Nat
  deriving DecidableEq, Repr

/-- The process state: the static list `map_head` of `guest_to_host`, the
lines written to the output file, and the record of calls. -/
structure State where
  map_head : List mapped_page
  file : List String
  calls : List Call
  deriving DecidableEq, Repr

/-- The state at program start: `map_head = NULL`, nothing written. -/
def State.init : State := ⟨[], [], []⟩

/-- Record a call. -/
def State.called (st : State) (c : Call) : State :=
  { st with calls := st.calls ++ [c] }

/-- Append lines to the output file. -/
def State.fprintf (st : State) (lines : List String) : State :=
  { st with file := st.file ++ lines }

/-- How a piece of the program ends when started in a state. -/
inductive Run (σ : Type) (α : Type) where
  /-- it returns a value -/
  | ret (a : α) (s : σ)
  /-- the process is killed by a hardware exception -/
  | fault (s : σ)
  /-- the step budget of the model is used up -/
  | out_of_fuel
  deriving DecidableEq, Repr

/-! ## Memory translation cache (uniprof.c 139-177) -/

/-- Modelled from the spec: `XC_PAGE_SIZE` of `xenctrl.h` (not in the
repository), the 4096-byte page of the guest. -/
def XC_PAGE_SIZE : Nat := 4096

/-- The page address `gaddr & XC_PAGE_MASK`, with
`XC_PAGE_MASK = ~(XC_PAGE_SIZE-1)`. -/
def page_base (gaddr : Nat) : Nat := gaddr / XC_PAGE_SIZE * XC_PAGE_SIZE

/-- The offset in the page, `gaddr & ~XC_PAGE_MASK`. -/
def page_offset (gaddr : Nat) : Nat := gaddr % XC_PAGE_SIZE

/-- The scan of lines 146-154: the first entry of the list whose `base` is
the page looked for. -/
def find_page (base : Nat) : List mapped_page → Option mapped_page
  | [] => none
  | e :: rest => if base = e.base then some e else find_page base rest

/-- The function `guest_to_host` (lines 139-177): the host pointer for a
guest address (0 is `NULL`) and the state after the call. -/
def guest_to_host (xc : Xen) (vcpu gaddr : Nat) (st : State) : Nat × State :=
  let base := page_base gaddr
  let offset := page_offset gaddr
  match find_page base st.map_head with
  | some e => (e.buf + offset, st)
  | none =>
    let st := st.called Call.malloc
    if xc.malloc = false then (0, st)
    else
      let mfn := xc.translate_foreign_address vcpu base
      let st := st.called (Call.xc_translate_foreign_address vcpu base)
      let buf := xc.map_foreign_range mfn
      let st := st.called (Call.xc_map_foreign_range mfn)
      if buf = 0 then (0, st)
      else (buf + offset, { st with map_head := st.map_head ++ [⟨base, mfn, buf⟩] })

/-- A sequence of `guest_to_host` calls, each with the answers the outside
world gives at that moment, its vcpu and its guest address. -/
def guest_to_host_calls : List (Xen × Nat × Nat) → State → State
  | [], st => st
  | (xc, vcpu, gaddr) :: rest, st =>
    guest_to_host_calls rest (guest_to_host xc vcpu gaddr st).2

/-- A read of `n` bytes at host address `p` lies inside the page-sized buffer
that starts at `buf`. -/
def inside_buffer (buf p n : Nat) : Prop :=
  buf ≤ p ∧ p + n ≤ buf + XC_PAGE_SIZE

instance (buf p n : Nat) : Decidable (inside_buffer buf p n) := by
  unfold inside_buffer; exact inferInstance

/-! ## Stack unwinder (uniprof.c 122-206) -/

/-- The function `frame_pointer` (lines 122-129): `ebp` is a 32-bit and
`rbp` a 64-bit field. -/
def frame_pointer (vc : vcpu_guest_context_any_t) (wordsize : Nat) : Nat :=
  if wordsize = 4 then vc.x32_ebp % 2 ^ 32 else vc.x64_rbp % 2 ^ 64

/-- The function `instruction_pointer` (lines 131-137). -/
def instruction_pointer (vc : vcpu_guest_context_any_t) (wordsize : Nat) : Nat :=
  if wordsize = 4 then vc.x32_eip % 2 ^ 32 else vc.x64_rip % 2 ^ 64

/-- The bytes `memcpy` reads: the `n` bytes at host addresses `p`, `p+1`, ..
as a little-endian number; `none` when the pointer is null or one of the
bytes is not readable. -/
def load (host : Nat → Option Nat) (p : Nat) : Nat → Option Nat
  | 0 => some 0
  | n + 1 =>
    if p = 0 then none
    else
      match host p, load host (p + 1) n with
      | some b, some v => some (b % 256 + 256 * v)
      | _, _ => none

/-- The effect of `memcpy(&x, src, wordsize)` on the 64-bit variable `x` of a
little-endian host: the low `wordsize` bytes are replaced. -/
def store_low (x wordsize v : Nat) : Nat :=
  x / 2 ^ (8 * wordsize) * 2 ^ (8 * wordsize) + v

/-- The conversion `%#lx` of `printf` with the `PRIx64` length: lower-case
hexadecimal after `0x`, and plain `0` for zero. -/
def hex (n : Nat) : String :=
  if n = 0 then "0" else "0x" ++ String.mk (Nat.toDigits 16 n)

/-- One pass of the loop body of `walk_stack` (lines 195-203) for a non-zero
`fp`: the new values of `fp` and `retaddr`.  Each `memcpy` is recorded with
its source address and length before it reads. -/
def walk_pass (xc : Xen) (vcpu wordsize fp retaddr : Nat) (st : State) :
    Run State (Nat × Nat) :=
  let r := guest_to_host xc vcpu fp st
  let hfp := r.1
  let st := r.2.fprintf [hex retaddr]
  let st := st.called (Call.memcpy hfp wordsize)
  match load xc.host hfp wordsize with
  | none => Run.fault st
  | some w1 =>
    let st := st.called (Call.memcpy (hfp + wordsize) wordsize)
    match load xc.host (hfp + wordsize) wordsize with
    | none => Run.fault st
    | some w2 => Run.ret (store_low fp wordsize w1, store_low retaddr wordsize w2) st

/-- The loop of `walk_stack` (lines 194-204) from given values of `fp` and
`retaddr`.  The first argument is the step budget. -/
def walk_loop (xc : Xen) (vcpu wordsize : Nat) : Nat → Nat → Nat → State → Run State Unit
  | 0, fp, _, st => if fp = 0 then Run.ret () st else Run.out_of_fuel
  | fuel + 1, fp, retaddr, st =>
    if fp = 0 then Run.ret () st
    else
      match walk_pass xc vcpu wordsize fp retaddr st with
      | Run.ret next st => walk_loop xc vcpu wordsize fuel next.1 next.2 st
      | Run.fault st => Run.fault st
      | Run.out_of_fuel => Run.out_of_fuel

/-- The reads recorded in a record of calls: source address and length of
each `memcpy`, in order. -/
def memcpy_reads : List Call → List (Nat × Nat)
  | [] => []
  | Call.memcpy src n :: rest => (src, n) :: memcpy_reads rest
  | _ :: rest => memcpy_reads rest

/-- The function `walk_stack` (lines 179-206). -/
def walk_stack (fuel : Nat) (xc : Xen) (vcpu wordsize : Nat) (st : State) : Run State Unit :=
  let st := st.called (Call.xc_vcpu_getcontext vcpu)
  let r := xc.vcpu_getcontext vcpu
  if r.1 < 0 then Run.ret () st
  else
    match walk_loop xc vcpu wordsize fuel (frame_pointer r.2 wordsize)
        (instruction_pointer r.2 wordsize) st with
    | Run.ret _ st => Run.ret () (st.fprintf ["1", ""])
    | Run.fault st => Run.fault st
    | Run.out_of_fuel => Run.out_of_fuel

/-- The `n`-byte little-endian word of guest memory at guest address `a`;
`mem` gives the byte at each guest address. -/
def guest_word (mem : Nat → Nat) (a : Nat) : Nat → Nat
  | 0 => 0
  | n + 1 => mem a % 256 + 256 * guest_word mem (a + 1) n

/-- A frame chain in guest memory, as the list of its frames, each given by
its frame pointer and its return address: the chain that starts at `fp` is
empty when `fp` is 0; otherwise `fp` is the first frame pointer, non-zero, the
word at `fp + wordsize` is the frame's return address and the word at `fp`
starts the rest of the chain. -/
def frame_chain (mem : Nat → Nat) (wordsize : Nat) : Nat → List (Nat × Nat) → Prop
  | fp, [] => fp = 0
  | fp, (f, r) :: rest =>
    fp = f ∧ f ≠ 0 ∧ guest_word mem (f + wordsize) wordsize = r ∧
      frame_chain mem wordsize (guest_word mem f wordsize) rest

/-- The guest page at `base` resolves successfully for `vcpu` from the list
`pages`: there is a non-null buffer that holds the bytes of the page and is
either the buffer of the page's entry in the list, or, the page having no
entry and `malloc` succeeding, what mapping the translated page returns. -/
def resolves (xc : Xen) (vcpu : Nat) (mem : Nat → Nat) (pages : List mapped_page)
    (base : Nat) : Prop :=
  ∃ buf, buf ≠ 0 ∧ (∀ k, k < XC_PAGE_SIZE → xc.host (buf + k) = some (mem (base + k))) ∧
    ((∃ e, find_page base pages = some e ∧ e.buf = buf) ∨
      (find_page base pages = none ∧ xc.malloc = true ∧
        xc.map_foreign_range (xc.translate_foreign_address vcpu base) = buf))

/-! ## One sampling step (uniprof.c 211-226) -/

/-- The outside world during one tick: the results of `xc_domain_pause` and
`xc_domain_unpause`, the guest as seen while paused, and the two clock
readings `begin` and `end` of the tick. -/
structure Tick where
  pause : Int
  unpause : Int
  xc : Xen
  begin_ : Timespec
  end_ : Timespec

/-- The `for` loop of `do_stack_trace` (lines 218-220) from a given value of
the `unsigned int vcpu`.  The first argument is the budget of each
`walk_stack`, the fourth the step budget of this loop. -/
def vcpu_loop (walk_fuel : Nat) (xc : Xen) (max_vcpu_id wordsize : Nat) :
    Nat → Nat → State → Run State Unit
  | 0, vcpu, st => if vcpu ≤ max_vcpu_id then Run.out_of_fuel else Run.ret () st
  | fuel + 1, vcpu, st =>
    if vcpu ≤ max_vcpu_id then
      match walk_stack walk_fuel xc vcpu wordsize (st.called (Call.walk_stack vcpu)) with
      | Run.ret _ st => vcpu_loop walk_fuel xc max_vcpu_id wordsize fuel ((vcpu + 1) % 2 ^ 32) st
      | Run.fault st => Run.fault st
      | Run.out_of_fuel => Run.out_of_fuel
    else Run.ret () st

/-- The function `do_stack_trace` (lines 211-226). -/
def do_stack_trace (fuel : Nat) (t : Tick) (max_vcpu_id wordsize : Nat) (st : State) :
    Run State Int :=
  let st := st.called Call.xc_domain_pause
  if t.pause < 0 then Run.ret (-7) st
  else
    match vcpu_loop fuel t.xc max_vcpu_id wordsize fuel 0 st with
    | Run.ret _ st =>
      let st := st.called Call.xc_domain_unpause
      if t.unpause < 0 then Run.ret (-7) st else Run.ret 0 st
    | Run.fault st => Run.fault st
    | Run.out_of_fuel => Run.out_of_fuel

/-- The calls `do_stack_trace` makes itself. -/
def Call.direct : Call → Bool
  | .xc_domain_pause => true
  | .xc_domain_unpause => true
  | .walk_stack _ => true
  | _ => false

/-! ## The sampling loop of `main` (uniprof.c 299, 355-390) -/

/-- The locals of `main` the loop works on and the process state. -/
structure Main where
  missed_deadlines : Nat
  trace : List Action
  st : State
  deriving DecidableEq, Repr

/-- The values fixed before the loop starts. -/
structure Config where
  freq : Nat
  time : Nat
  warn_missed_deadlines : Bool
  minsleep : Timespec

/-- How one pass of a loop body in `main` ends: the loop goes on, or `main`
returns the code. -/
inductive Flow where
  | next
  | exit (code : Int)
  deriving DecidableEq, Repr

/-- The body of the inner loop (lines 357-383) for tick number `k`.
`sample k` is the call `do_stack_trace(..)` of that tick and `clock k` its
two clock readings. -/
def tick (sample : Nat → State → Run State Int) (clock : Nat → Timespec × Timespec)
    (cfg : Config) (k : Nat) (m : Main) : Run Main Flow :=
  let trace := m.trace ++ [Action.clock_gettime, Action.do_stack_trace]
  match sample k m.st with
  | Run.out_of_fuel => Run.out_of_fuel
  | Run.fault st => Run.fault { m with trace := trace, st := st }
  | Run.ret ret st =>
    if ret ≠ 0 then Run.ret (Flow.exit ret) { m with trace := trace, st := st }
    else
      let w := tick_wait (period cfg.freq) cfg.minsleep cfg.warn_missed_deadlines
        (clock k).1 (clock k).2 m.missed_deadlines
      Run.ret Flow.next ⟨w.1, trace ++ [Action.clock_gettime] ++ w.2, st⟩

/-- Sequencing in the loops of `main`: a pass that ends with `next` is
followed by `rest`; a `return`, a fault or a used-up budget ends the run. -/
def seq_next (r : Run Main Flow) (rest : Main → Run Main Flow) : Run Main Flow :=
  match r with
  | Run.ret Flow.next m => rest m
  | r => r

/-- The loop `for (j = 0; j < freq; j++)` (line 356) of group `i`, with
`rem = freq - j` passes to go; `j < freq` keeps `j++` from wrapping. -/
def inner_loop (sample : Nat → State → Run State Int) (clock : Nat → Timespec × Timespec)
    (cfg : Config) (i : Nat) : Nat → Nat → Main → Run Main Flow
  | 0, _, m => Run.ret Flow.next m
  | rem + 1, j, m =>
    seq_next (tick sample clock cfg (i * cfg.freq + j) m)
      (fun m => inner_loop sample clock cfg i rem (j + 1) m)

/-- The loop `for (i = 0; i < time; i++)` (line 355), with `rem = time - i`
passes to go. -/
def outer_loop (sample : Nat → State → Run State Int) (clock : Nat → Timespec × Timespec)
    (cfg : Config) : Nat → Nat → Main → Run Main Flow
  | 0, _, m => Run.ret Flow.next m
  | rem + 1, i, m =>
    seq_next (inner_loop sample clock cfg i cfg.freq 0 m)
      (fun m => outer_loop sample clock cfg rem (i + 1) m)

/-- Line 299 and lines 355-390 of `main`: the division `1000000000/freq`
traps when `freq` is 0; otherwise the loops run and `main` returns. -/
def sampling (sample : Nat → State → Run State Int) (clock : Nat → Timespec × Timespec)
    (cfg : Config) (st : State) : Run Main Int :=
  if cfg.freq = 0 then Run.fault ⟨0, [], st⟩
  else
    match outer_loop sample clock cfg cfg.time 0 ⟨0, [], st⟩ with
    | Run.ret Flow.next m => Run.ret 0 m
    | Run.ret (Flow.exit code) m => Run.ret code m
    | Run.fault m => Run.fault m
    | Run.out_of_fuel => Run.out_of_fuel

/-- The loop of `main` with `do_stack_trace` as its sampling step: `world k`
is the outside world during tick `k`. -/
def main_loop (fuel : Nat) (world : Nat → Tick) (max_vcpu_id wordsize : Nat)
    (cfg : Config) (st : State) : Run Main Int :=
  sampling (fun k s => do_stack_trace fuel (world k) max_vcpu_id wordsize s)
    (fun k => ((world k).begin_, (world k).end_)) cfg st

/-- The ticks `k`, `k+1`, .., `k+n-1` run one after the other, without the
grouping: what the two nested loops amount to (`outer_loop_eq_flat`). -/
def flat_loop (sample : Nat → State → Run State Int) (clock : Nat → Timespec × Timespec)
    (cfg : Config) : Nat → Nat → Main → Run Main Flow
  | 0, _, m => Run.ret Flow.next m
  | n + 1, k, m =>
    seq_next (tick sample clock cfg k m) (fun m => flat_loop sample clock cfg n (k + 1) m)

/-- The number of `do_stack_trace` calls in a trace of `main`. -/
def ticks (trace : List Action) : Nat :=
  trace.count Action.do_stack_trace

/-- The value of `missed_deadlines` and the trace of `main` after `n` ticks
that all went on to the next: each tick reads the clock, calls
`do_stack_trace`, reads the clock again and ends as `tick_wait` says. -/
def after_ticks (clock : Nat → Timespec × Timespec) (cfg : Config) : Nat → Nat × List Action
  | 0 => (0, [])
  | n + 1 =>
    ((tick_wait (period cfg.freq) cfg.minsleep cfg.warn_missed_deadlines
        (clock n).1 (clock n).2 (after_ticks clock cfg n).1).1,
      (after_ticks clock cfg n).2 ++ [Action.clock_gettime, Action.do_stack_trace]
        ++ [Action.clock_gettime]
        ++ (tick_wait (period cfg.freq) cfg.minsleep cfg.warn_missed_deadlines
        (clock n).1 (clock n).2 (after_ticks clock cfg n).1).2)

/-- The two clock readings of each tick of a world. -/
def world_clock (world : Nat → Tick) (k : Nat) : Timespec × Timespec :=
  ((world k).begin_, (world k).end_)

/-- Every `walk_stack` call of a tick returns: started in state `s`, the tick
passes through the states `sts 0` (after the pause), `sts 1` (after the walk
of vcpu 0), .., `sts (max_vcpu_id + 1)`, and ends, after the unpause, in
state `s'`. -/
def walks_return (fuel : Nat) (xc : Xen) (max_vcpu_id wordsize : Nat) (s s' : State) : Prop :=
  ∃ sts : Nat → State, sts 0 = s.called Call.xc_domain_pause ∧
    (∀ v, v ≤ max_vcpu_id →
      walk_stack fuel xc v wordsize ((sts v).called (Call.walk_stack v))
        = Run.ret () (sts (v + 1))) ∧
    s' = (sts (max_vcpu_id + 1)).called Call.xc_domain_unpause

/-- The calls `do_stack_trace` makes itself in a tick in which nothing
fails. -/
def tick_calls (max_vcpu_id : Nat) : List Call :=
  [Call.xc_domain_pause] ++ (List.range (max_vcpu_id + 1)).map Call.walk_stack
    ++ [Call.xc_domain_unpause]

/-- A list of calls made `n` times over. -/
def repeated (block : List Call) : Nat → List Call
  | 0 => []
  | n + 1 => repeated block n ++ block

/-! ## Positional arguments of `main` (uniprof.c 300-323) -/

/-- The C `isspace` in the "C" locale. -/
def isspace (c : Char) : Bool :=
  c.toNat = 32 || (9 ≤ c.toNat && c.toNat ≤ 13)

/-- The value of the decimal digits a string starts with, and whether there
is at least one. -/
def leading_digits : List Char → Nat → Bool → Nat × Bool
  | [], acc, any => (acc, any)
  | c :: rest, acc, any =>
    if 48 ≤ c.toNat ∧ c.toNat ≤ 57 then leading_digits rest (10 * acc + (c.toNat - 48)) true
    else (acc, any)

/-- The C `strtol(s, NULL, 10)`: white space, an optional sign, decimal
digits; 0 when no digit follows; the value is clamped to the range of
`long`. -/
def strtol (s : String) : Int :=
  let cs := s.toList.dropWhile isspace
  let signed : Bool × List Char :=
    match cs with
    | c :: rest =>
      if c.toNat = 45 then (true, rest) else if c.toNat = 43 then (false, rest) else (false, cs)
    | [] => (false, cs)
  let d := leading_digits signed.2 0 false
  if d.2 = false then 0
  else if signed.1 then max (-(d.1 : Int)) (-(2 ^ 63)) else min (d.1 : Int) (2 ^ 63 - 1)

/-- The conversion of a `long` to `int` in the assignment `domid = strtol(..)`. -/
def to_int (x : Int) : Int := (x + 2 ^ 31) % 2 ^ 32 - 2 ^ 31

/-- Where the samples are written. -/
inductive Outfile where
  | stdout
  | path (name : String)
  deriving DecidableEq, Repr

/-- What `main` takes from its positional arguments. -/
structure Target where
  domid : Int
  outfile : Outfile
  deriving DecidableEq, Repr

/-- How the argument handling ends: `main` returns the code, or goes on
with the domain id and output file. -/
inductive Startup where
  | exit (code : Int)
  | go (t : Target)
  deriving DecidableEq, Repr

/-- Lines 300-323 of `main`.  `args` are the arguments left after
`argv += optind`, so `argv[0]` is `args[0]`; `fopen name` tells whether the
file can be opened for writing.  The test of line 314,
`strlen(argv[1]) == 1` and `strncmp(argv[1], "-", 1) == 0`, holds of the
string `-` only. -/
def main_args (fopen : String → Bool) (args : List String) : Startup :=
  if args.length < 2 ∨ args.length > 3 then Startup.exit (-1)
  else
    let domid := to_int (strtol (args.getD 0 ""))
    if domid = 0 then Startup.exit (-2)
    else
      let name := args.getD 1 ""
      if name.toList = [Char.ofNat 45] then Startup.go ⟨domid, Outfile.stdout⟩
      else if fopen name then Startup.go ⟨domid, Outfile.path name⟩
      else Startup.exit (-3)

/-! ## Concrete guests -/

/-- The bytes of a guest page holding a three-frame chain of a 64-bit guest:
frames at 0x7000, 0x7020 and 0x7040 with saved frame pointers 0x7020, 0x7040
and 0, and return addresses 0x401000, 0x402000 and 0x403000. -/
def chain_memory (a : Nat) : Nat :=
  if a = 0x7000 then 0x20 else if a = 0x7001 then 0x70
  else if a = 0x7009 then 0x10 else if a = 0x700a then 0x40
  else if a = 0x7020 then 0x40 else if a = 0x7021 then 0x70
  else if a = 0x7029 then 0x20 else if a = 0x702a then 0x40
  else if a = 0x7049 then 0x30 else if a = 0x704a then 0x40
  else 0

/-- A 64-bit guest stopped at 0x400123 in the innermost of the three frames of
`chain_memory`; its stack page maps at host address 0x10000. -/
def chain_guest : Xen where
  vcpu_getcontext := fun _ => (0, ⟨0, 0, 0x7000, 0x400123⟩)
  malloc := true
  translate_foreign_address := fun _ base => base / 4096 + 100
  map_foreign_range := fun mfn => if mfn = 107 then 0x10000 else 0
  host := fun a =>
    if 0x10000 ≤ a ∧ a < 0x11000 then some (chain_memory (a - 0x10000 + 0x7000)) else none

/-- A 64-bit guest whose frame at 0x7000 holds its own address as the saved
frame pointer. -/
def cyclic_guest : Xen where
  vcpu_getcontext := fun _ => (0, ⟨0, 0, 0x7000, 0x400123⟩)
  malloc := true
  translate_foreign_address := fun _ base => base / 4096 + 100
  map_foreign_range := fun mfn => if mfn = 107 then 0x10000 else 0
  host := fun a =>
    if a = 0x10001 then some 0x70
    else if 0x10000 ≤ a ∧ a < 0x11000 then some 0 else none

/-- A 64-bit guest with frame pointer 0x7000 whose stack page cannot be
mapped: `xc_map_foreign_range` returns `NULL`. -/
def unmapped_guest : Xen where
  vcpu_getcontext := fun _ => (0, ⟨0, 0, 0x7000, 0x400123⟩)
  malloc := true
  translate_foreign_address := fun _ base => base / 4096 + 100
  map_foreign_range := fun _ => 0
  host := fun _ => none

/-- A guest for which the translation fails (returns 0) while machine frame 0
can be mapped, at host address 0x10000. -/
def untranslated_guest : Xen where
  vcpu_getcontext := fun _ => (0, ⟨0, 0, 0x7000, 0x400123⟩)
  malloc := true
  translate_foreign_address := fun _ _ => 0
  map_foreign_range := fun mfn => if mfn = 0 then 0x10000 else 0
  host := fun a => if 0x10000 ≤ a ∧ a < 0x11000 then some 0 else none

/-- The bytes of the guest memory of `straddling_guest`: the 4-byte word at
0x7ffc is 0 and the 4-byte word at 0x8000 is 0x401000. -/
def straddling_memory (a : Nat) : Nat :=
  if a = 0x8001 then 0x10 else if a = 0x8002 then 0x40 else 0

/-- A 32-bit guest stopped at 0x400123 whose only frame starts at 0x7ffc: the
saved frame pointer (0) is the last word of the page at 0x7000, the return
address (0x401000) the first word of the page at 0x8000.  Both pages can be
mapped, at host addresses 0x10000 and 0x20000; nothing else is readable. -/
def straddling_guest : Xen where
  vcpu_getcontext := fun _ => (0, ⟨0x7ffc, 0x400123, 0, 0⟩)
  malloc := true
  translate_foreign_address := fun _ base => base / 4096 + 100
  map_foreign_range := fun mfn =>
    if mfn = 107 then 0x10000 else if mfn = 108 then 0x20000 else 0
  host := fun a =>
    if 0x10000 ≤ a ∧ a < 0x11000 then some (straddling_memory (a - 0x10000 + 0x7000))
    else if 0x20000 ≤ a ∧ a < 0x21000 then some (straddling_memory (a - 0x20000 + 0x8000))
    else none

/-- The bytes of the guest memory of `adjacent_guest`: a two-frame chain of a
32-bit guest, the first frame at 0x7ffc (saved frame pointer 0x8010 in the
last word of the page at 0x7000, return address 0x401000 in the first word of
the page at 0x8000), the second at 0x8010 (saved frame pointer 0, return
address 0x402000). -/
def adjacent_memory (a : Nat) : Nat :=
  if a = 0x7ffc then 0x10 else if a = 0x7ffd then 0x80
  else if a = 0x8001 then 0x10 else if a = 0x8002 then 0x40
  else if a = 0x8015 then 0x20 else if a = 0x8016 then 0x40
  else 0

/-- A 32-bit guest stopped at 0x400123 on the chain of `adjacent_memory`.  Its
pages at 0x7000 and 0x8000 map at host addresses 0x10000 and 0x20000; the
host page after the first buffer, at 0x11000, is readable too and holds bytes
0xaa that are no part of the guest's stack. -/
def adjacent_guest : Xen where
  vcpu_getcontext := fun _ => (0, ⟨0x7ffc, 0x400123, 0, 0⟩)
  malloc := true
  translate_foreign_address := fun _ base => base / 4096 + 100
  map_foreign_range := fun mfn =>
    if mfn = 107 then 0x10000 else if mfn = 108 then 0x20000 else 0
  host := fun a =>
    if 0x10000 ≤ a ∧ a < 0x11000 then some (adjacent_memory (a - 0x10000 + 0x7000))
    else if 0x11000 ≤ a ∧ a < 0x12000 then some 0xaa
    else if 0x20000 ≤ a ∧ a < 0x21000 then some (adjacent_memory (a - 0x20000 + 0x8000))
    else none

/-- A guest whose vcpus have a null frame pointer. -/
def idle_guest : Xen where
  vcpu_getcontext := fun _ => (0, ⟨0, 0x400123, 0, 0x400123⟩)
  malloc := true
  translate_foreign_address := fun _ base => base / 4096 + 100
  map_foreign_range := fun _ => 0
  host := fun _ => none

/-- The states of a tick on the two vcpus of `chain_guest` from program
start: after the pause, after the first `walk_stack`, after the second. -/
def chain_states : Nat → State
  | 0 => ⟨[], [], [Call.xc_domain_pause]⟩
  | 1 => ⟨[⟨0x7000, 107, 0x10000⟩], ["0x400123", "0x401000", "0x402000", "1", ""],
      [Call.xc_domain_pause, Call.walk_stack 0, Call.xc_vcpu_getcontext 0, Call.malloc,
        Call.xc_translate_foreign_address 0 0x7000, Call.xc_map_foreign_range 107,
        Call.memcpy 0x10000 8, Call.memcpy 0x10008 8, Call.memcpy 0x10020 8,
        Call.memcpy 0x10028 8, Call.memcpy 0x10040 8, Call.memcpy 0x10048 8]⟩
  | _ => ⟨[⟨0x7000, 107, 0x10000⟩],
      ["0x400123", "0x401000", "0x402000", "1", "", "0x400123", "0x401000", "0x402000", "1", ""],
      [Call.xc_domain_pause, Call.walk_stack 0, Call.xc_vcpu_getcontext 0, Call.malloc,
        Call.xc_translate_foreign_address 0 0x7000, Call.xc_map_foreign_range 107,
        Call.memcpy 0x10000 8, Call.memcpy 0x10008 8, Call.memcpy 0x10020 8,
        Call.memcpy 0x10028 8, Call.memcpy 0x10040 8, Call.memcpy 0x10048 8,
        Call.walk_stack 1, Call.xc_vcpu_getcontext 1,
        Call.memcpy 0x10000 8, Call.memcpy 0x10008 8, Call.memcpy 0x10020 8,
        Call.memcpy 0x10028 8, Call.memcpy 0x10040 8, Call.memcpy 0x10048 8]⟩

/-- A tick on a guest in which pause and unpause succeed. -/
def quiet_tick (xc : Xen) : Tick := ⟨0, 0, xc, ⟨0, 0⟩, ⟨0, 0⟩⟩

/-- The states between the ticks of a run on vcpu 0 of `chain_guest` from
program start: at the start, after the first tick, after the second. -/
def chain_run : Nat → State
  | 0 => State.init
  | 1 => ⟨[⟨0x7000, 107, 0x10000⟩], ["0x400123", "0x401000", "0x402000", "1", ""],
      [Call.xc_domain_pause, Call.walk_stack 0, Call.xc_vcpu_getcontext 0, Call.malloc,
        Call.xc_translate_foreign_address 0 0x7000, Call.xc_map_foreign_range 107,
        Call.memcpy 0x10000 8, Call.memcpy 0x10008 8, Call.memcpy 0x10020 8,
        Call.memcpy 0x10028 8, Call.memcpy 0x10040 8, Call.memcpy 0x10048 8,
        Call.xc_domain_unpause]⟩
  | _ => ⟨[⟨0x7000, 107, 0x10000⟩],
      ["0x400123", "0x401000", "0x402000", "1", "", "0x400123", "0x401000", "0x402000", "1", ""],
      [Call.xc_domain_pause, Call.walk_stack 0, Call.xc_vcpu_getcontext 0, Call.malloc,
        Call.xc_translate_foreign_address 0 0x7000, Call.xc_map_foreign_range 107,
        Call.memcpy 0x10000 8, Call.memcpy 0x10008 8, Call.memcpy 0x10020 8,
        Call.memcpy 0x10028 8, Call.memcpy 0x10040 8, Call.memcpy 0x10048 8,
        Call.xc_domain_unpause,
        Call.xc_domain_pause, Call.walk_stack 0, Call.xc_vcpu_getcontext 0,
        Call.memcpy 0x10000 8, Call.memcpy 0x10008 8, Call.memcpy 0x10020 8,
        Call.memcpy 0x10028 8, Call.memcpy 0x10040 8, Call.memcpy 0x10048 8,
        Call.xc_domain_unpause]⟩

/-- The states inside tick `k` of that run: after the pause, and after the
`walk_stack` of vcpu 0 (the state of `chain_run (k + 1)` before the unpause
is recorded). -/
def chain_run_inside (k : Nat) : Nat → State
  | 0 => (chain_run k).called Call.xc_domain_pause
  | _ => { chain_run (k + 1) with calls := (chain_run (k + 1)).calls.dropLast }

/-- A world in which the chain guest is sampled with working pause and
unpause, tick `k` beginning at second `k` and taking 500 ns. -/
def chain_world (k : Nat) : Tick := ⟨0, 0, chain_guest, ⟨k, 0⟩, ⟨k, 500⟩⟩

/-- The same world with the unpause of tick 1 failing. -/
def failing_unpause_world (k : Nat) : Tick :=
  ⟨0, if k = 1 then -1 else 0, chain_guest, ⟨k, 0⟩, ⟨k, 500⟩⟩

/-! ## Theorems: time arithmetic and the end of a tick -/

theorem period_le (F : Nat) : (1000000000 / F : Nat) ≤ 1000000000 :=
  Nat.div_le_self _ _

theorem timespeccmp_lt_iff (a b : Timespec) (ha : a.normalized) (hb : b.normalized) :
    timespeccmp_lt a b = true ↔ a.nanos < b.nanos := by
  unfold Timespec.normalized at ha hb
  unfold timespeccmp_lt Timespec.nanos
  by_cases h : a.tv_sec = b.tv_sec
  · simp only [h, if_true, decide_eq_true_eq]; omega
  · simp only [h, if_false, decide_eq_true_eq]; omega

theorem timespecadd_period (b : Timespec) (F : Nat) (hb : b.normalized) :
    (timespecadd b (period F)).normalized ∧
      (timespecadd b (period F)).nanos = b.nanos + ((1000000000 / F : Nat) : Int) := by
  have hp := period_le F
  unfold Timespec.normalized at hb ⊢
  unfold timespecadd period Timespec.nanos
  generalize 1000000000 / F = p at hp ⊢
  simp only
  split <;> simp only <;> omega

theorem timespecsub_normalized (a b : Timespec) (ha : a.normalized) (hb : b.normalized) :
    (timespecsub a b).normalized ∧ (timespecsub a b).nanos = a.nanos - b.nanos := by
  unfold Timespec.normalized at ha hb ⊢
  unfold timespecsub Timespec.nanos
  simp only
  split <;> simp only <;> omega

/-- C3: for every frequency `F ≥ 1` and normalized clock readings `begin` and
`end` of a tick, the tick increments `missed_deadlines` (an
`unsigned long long`) once, and neither sleeps nor busy-waits, exactly when
`end` is later than `begin + floor(10^9 / F)` nanoseconds; in every other
tick the counter keeps its value. -/
theorem missed_deadline_exactly_when_late (F : Nat) (_hF : 1 ≤ F)
    (begin_ end_ minsleep : Timespec) (warn : Bool) (missed : Nat)
    (hb : begin_.normalized) (he : end_.normalized) :
    (begin_.nanos + ((1000000000 / F : Nat) : Int) < end_.nanos →
      (tick_wait (period F) minsleep warn begin_ end_ missed).1 = (missed + 1) % 2 ^ 64 ∧
      (missed + 1 < 2 ^ 64 →
        (tick_wait (period F) minsleep warn begin_ end_ missed).1 = missed + 1) ∧
      ∀ a ∈ (tick_wait (period F) minsleep warn begin_ end_ missed).2,
        a.isSleep = false ∧ a.isBusywait = false) ∧
    (¬ begin_.nanos + ((1000000000 / F : Nat) : Int) < end_.nanos →
      (tick_wait (period F) minsleep warn begin_ end_ missed).1 = missed) := by
  have hadd := timespecadd_period begin_ F hb
  have hcmp := timespeccmp_lt_iff (timespecadd begin_ (period F)) end_ hadd.1 he
  rw [hadd.2] at hcmp
  constructor
  · intro hlate
    have hc := hcmp.2 hlate
    unfold tick_wait
    simp only [hc, if_true]
    refine ⟨trivial, fun h => Nat.mod_eq_of_lt h, ?_⟩
    intro a ha
    cases warn
    · simp at ha
    · simp only [if_true, List.mem_singleton] at ha
      subst ha
      exact ⟨rfl, rfl⟩
  · intro hnot
    have hc : timespeccmp_lt (timespecadd begin_ (period F)) end_ = false := by
      cases h : timespeccmp_lt (timespecadd begin_ (period F)) end_
      · rfl
      · exact absurd (hcmp.1 h) hnot
    unfold tick_wait
    simp only [hc, Bool.false_eq_true, if_false]
    split <;> rfl

/-- The witness of C3: at 2 Hz, a tick that took 0.7 s is late and one that
took 0.2 s is not. -/
theorem missed_deadline_exactly_when_late_witness :
    (tick_wait (period 2) ⟨0, 60000⟩ false ⟨5, 900000000⟩ ⟨6, 600000000⟩ 3).1 = 4 ∧
    (tick_wait (period 2) ⟨0, 60000⟩ false ⟨5, 900000000⟩ ⟨6, 100000000⟩ 3).1 = 3 :=
  ⟨((missed_deadline_exactly_when_late 2 (by decide) ⟨5, 900000000⟩ ⟨6, 600000000⟩
      ⟨0, 60000⟩ false 3 (by decide) (by decide)).1 (by decide)).2.1 (by decide),
   (missed_deadline_exactly_when_late 2 (by decide) ⟨5, 900000000⟩ ⟨6, 100000000⟩
      ⟨0, 60000⟩ false 3 (by decide) (by decide)).2 (by decide)⟩

/-- A tick that is not late and whose slack is below the calibrated minimum
only busy-waits, for the nanosecond field of the slack; otherwise it only
sleeps, for the slack. -/
theorem tick_wait_on_time (sleep minsleep begin_ end_ : Timespec) (warn : Bool) (missed : Nat)
    (h : timespeccmp_lt (timespecadd begin_ sleep) end_ = false) :
    (timespeccmp_lt (timespecsub (timespecadd begin_ sleep) end_) minsleep = true →
      tick_wait sleep minsleep warn begin_ end_ missed =
        (missed, [Action.busywait
          ((timespecsub (timespecadd begin_ sleep) end_).tv_nsec % 2 ^ 64).toNat])) ∧
    (timespeccmp_lt (timespecsub (timespecadd begin_ sleep) end_) minsleep = false →
      tick_wait sleep minsleep warn begin_ end_ missed =
        (missed, [Action.nanosleep (timespecsub (timespecadd begin_ sleep) end_)])) := by
  constructor <;> intro h2 <;> unfold tick_wait <;>
    simp only [h, h2, Bool.false_eq_true, if_false, if_true]

/-- Whenever the slack is below one second, the busy-wait is requested for
the whole slack. -/
theorem busywait_whole_slack_below_one_second (F : Nat) (begin_ end_ minsleep : Timespec)
    (warn : Bool) (missed : Nat) (hb : begin_.normalized) (he : end_.normalized)
    (h : timespeccmp_lt (timespecadd begin_ (period F)) end_ = false)
    (h2 : timespeccmp_lt (timespecsub (timespecadd begin_ (period F)) end_) minsleep = true)
    (h3 : (timespecsub (timespecadd begin_ (period F)) end_).tv_sec = 0) :
    tick_wait (period F) minsleep warn begin_ end_ missed =
      (missed, [Action.busywait
        (begin_.nanos + ((1000000000 / F : Nat) : Int) - end_.nanos).toNat]) := by
  rw [(tick_wait_on_time (period F) minsleep begin_ end_ warn missed h).1 h2]
  have hadd := timespecadd_period begin_ F hb
  have hsub := timespecsub_normalized _ _ hadd.1 he
  have hn := hsub.1
  unfold Timespec.normalized at hn
  have e : (timespecsub (timespecadd begin_ (period F)) end_).tv_nsec
      = begin_.nanos + ((1000000000 / F : Nat) : Int) - end_.nanos := by
    rw [← hadd.2, ← hsub.2]
    unfold Timespec.nanos
    rw [h3]; ring
  rw [← e, Int.emod_eq_of_lt hn.1 (lt_trans hn.2 (by norm_num))]

/-- C4, at a tick the code gets wrong: at 1 Hz with both clock readings equal
and a calibrated minimum sleep of 2 s (as `measure_overheads` returns it when
every `nanosleep` of the calibration takes 2 s), the tick has not missed its
deadline, its slack is one second, below the minimum, and the busy-wait is
requested for 0 ns: `busywait` is given the nanosecond field of the slack
without its seconds. -/
theorem busywait_request_drops_seconds :
    (measure_overheads (fun k => if k < 200 then ⟨2 * ((k + 1) / 2), 0⟩ else ⟨200, 0⟩) 100).2
      = ⟨2, 0⟩ ∧
    timespeccmp_lt (timespecadd ⟨10, 0⟩ (period 1)) ⟨10, 0⟩ = false ∧
    (timespecsub (timespecadd ⟨10, 0⟩ (period 1)) ⟨10, 0⟩).nanos = 1000000000 ∧
    timespeccmp_lt (timespecsub (timespecadd ⟨10, 0⟩ (period 1)) ⟨10, 0⟩) ⟨2, 0⟩ = true ∧
    tick_wait (period 1) ⟨2, 0⟩ false ⟨10, 0⟩ ⟨10, 0⟩ 0 = (0, [Action.busywait 0]) := by
  refine ⟨?_, by decide, by decide, by decide, by decide⟩
  set_option maxRecDepth 100000 in decide

/-! ## Theorems: the sampling loop -/

theorem seq_next_assoc (r : Run Main Flow) (f g : Main → Run Main Flow) :
    seq_next (seq_next r f) g = seq_next r (fun m => seq_next (f m) g) := by
  cases r with
  | ret a m => cases a <;> rfl
  | fault m => rfl
  | out_of_fuel => rfl

theorem inner_loop_eq_flat (sample : Nat → State → Run State Int)
    (clock : Nat → Timespec × Timespec) (cfg : Config) (i : Nat) :
    ∀ rem j m, inner_loop sample clock cfg i rem j m
      = flat_loop sample clock cfg rem (i * cfg.freq + j) m := by
  intro rem
  induction rem with
  | zero => intro j m; rfl
  | succ n ih =>
    intro j m
    simp only [inner_loop, flat_loop]
    congr 1
    funext m'
    rw [ih (j + 1) m']
    rfl

theorem flat_loop_add (sample : Nat → State → Run State Int)
    (clock : Nat → Timespec × Timespec) (cfg : Config) :
    ∀ a b k m, flat_loop sample clock cfg (a + b) k m
      = seq_next (flat_loop sample clock cfg a k m)
          (fun m => flat_loop sample clock cfg b (k + a) m) := by
  intro a
  induction a with
  | zero => intro b k m; simp [flat_loop, seq_next]
  | succ n ih =>
    intro b k m
    have e : n + 1 + b = (n + b) + 1 := by omega
    rw [e]
    simp only [flat_loop, seq_next_assoc]
    congr 1
    funext m'
    rw [ih b (k + 1) m']
    have e2 : k + 1 + n = k + (n + 1) := by omega
    rw [e2]

/-- The two nested loops run the ticks `i * freq`, .., `(i + rem) * freq - 1`
in order: the grouping has no effect. -/
theorem outer_loop_eq_flat (sample : Nat → State → Run State Int)
    (clock : Nat → Timespec × Timespec) (cfg : Config) :
    ∀ rem i m, outer_loop sample clock cfg rem i m
      = flat_loop sample clock cfg (rem * cfg.freq) (i * cfg.freq) m := by
  intro rem
  induction rem with
  | zero => intro i m; simp [outer_loop, flat_loop]
  | succ n ih =>
    intro i m
    have e : (n + 1) * cfg.freq = cfg.freq + n * cfg.freq := by ring
    rw [e, flat_loop_add]
    simp only [outer_loop]
    rw [inner_loop_eq_flat]
    congr 1
    funext m'
    rw [ih (i + 1) m']
    have e2 : (i + 1) * cfg.freq = i * cfg.freq + cfg.freq := by ring
    rw [e2]

theorem ticks_append (a b : List Action) : ticks (a ++ b) = ticks a + ticks b := by
  unfold ticks; exact List.count_append _ _ _

theorem ticks_tick_wait (sleep minsleep : Timespec) (warn : Bool) (b e : Timespec)
    (missed : Nat) : ticks (tick_wait sleep minsleep warn b e missed).2 = 0 := by
  unfold tick_wait ticks
  simp only
  split
  · cases warn <;> simp
  · split <;> simp

theorem tick_wait_missed_le (sleep minsleep : Timespec) (warn : Bool) (b e : Timespec)
    (missed : Nat) : (tick_wait sleep minsleep warn b e missed).1 ≤ missed + 1 := by
  unfold tick_wait
  simp only
  split
  · exact Nat.mod_le _ _
  · split <;> simp

/-- A tick whose sampling step returns 0 reads the clock again, waits and
goes on to the next tick. -/
theorem tick_of_zero_eq (sample : Nat → State → Run State Int)
    (clock : Nat → Timespec × Timespec) (cfg : Config) (k : Nat) (m : Main) (s : State)
    (h : sample k m.st = Run.ret 0 s) :
    tick sample clock cfg k m = Run.ret Flow.next
      ⟨(tick_wait (period cfg.freq) cfg.minsleep cfg.warn_missed_deadlines
          (clock k).1 (clock k).2 m.missed_deadlines).1,
        m.trace ++ [Action.clock_gettime, Action.do_stack_trace] ++ [Action.clock_gettime]
          ++ (tick_wait (period cfg.freq) cfg.minsleep cfg.warn_missed_deadlines
          (clock k).1 (clock k).2 m.missed_deadlines).2, s⟩ := by
  unfold tick
  simp only [h]
  rfl

/-- A tick whose sampling step returns a non-zero code makes `main` return
that code at once: the call is the last thing the loop did. -/
theorem tick_of_nonzero (sample : Nat → State → Run State Int)
    (clock : Nat → Timespec × Timespec) (cfg : Config) (k : Nat) (m : Main) (s : State)
    (r : Int) (hr : r ≠ 0) (h : sample k m.st = Run.ret r s) :
    tick sample clock cfg k m = Run.ret (Flow.exit r)
      ⟨m.missed_deadlines, m.trace ++ [Action.clock_gettime, Action.do_stack_trace], s⟩ := by
  unfold tick
  simp only [h, hr, ne_eq, not_false_eq_true, if_true]

theorem flat_loop_one (sample : Nat → State → Run State Int)
    (clock : Nat → Timespec × Timespec) (cfg : Config) (k : Nat) (m : Main) :
    flat_loop sample clock cfg 1 k m = tick sample clock cfg k m := by
  simp only [flat_loop]
  cases tick sample clock cfg k m with
  | ret a m' => cases a <;> rfl
  | fault m' => rfl
  | out_of_fuel => rfl

/-- Ticks whose sampling steps return 0 one after the other, `before k` being
the state in which step `k` starts and `before (k+1)` the state it returns:
the loop runs all of them. -/
theorem flat_loop_chain (sample : Nat → State → Run State Int)
    (clock : Nat → Timespec × Timespec) (cfg : Config) (before : Nat → State) :
    ∀ n, (∀ k, k < n → sample k (before k) = Run.ret 0 (before (k + 1))) →
      flat_loop sample clock cfg n 0 ⟨0, [], before 0⟩
        = Run.ret Flow.next
            ⟨(after_ticks clock cfg n).1, (after_ticks clock cfg n).2, before n⟩ := by
  intro n
  induction n with
  | zero => intro _; rfl
  | succ n ih =>
    intro h
    rw [flat_loop_add, ih (fun k hk => h k (by omega))]
    simp only [seq_next, Nat.zero_add]
    rw [flat_loop_one, tick_of_zero_eq sample clock cfg n _ (before (n + 1)) (h n (by omega))]
    rfl

/-- A step that returns a non-zero code after `k0` steps that returned 0
ends the loop: `main` returns the code with that call as the last thing it
did. -/
theorem flat_loop_chain_exit (sample : Nat → State → Run State Int)
    (clock : Nat → Timespec × Timespec) (cfg : Config) (before : Nat → State)
    (n k0 : Nat) (r : Int) (s' : State) (hr : r ≠ 0) (hk : k0 < n)
    (h : ∀ k, k < k0 → sample k (before k) = Run.ret 0 (before (k + 1)))
    (h0 : sample k0 (before k0) = Run.ret r s') :
    flat_loop sample clock cfg n 0 ⟨0, [], before 0⟩
      = Run.ret (Flow.exit r)
          ⟨(after_ticks clock cfg k0).1,
            (after_ticks clock cfg k0).2 ++ [Action.clock_gettime, Action.do_stack_trace],
            s'⟩ := by
  obtain ⟨j, hj⟩ : ∃ j, n = k0 + (j + 1) := ⟨n - k0 - 1, by omega⟩
  rw [hj, flat_loop_add, flat_loop_chain sample clock cfg before k0 h]
  simp only [seq_next, Nat.zero_add, flat_loop]
  rw [tick_of_nonzero sample clock cfg k0 _ s' r hr h0]

theorem ticks_after_ticks (clock : Nat → Timespec × Timespec) (cfg : Config) :
    ∀ n, ticks (after_ticks clock cfg n).2 = n := by
  intro n
  induction n with
  | zero => rfl
  | succ n ih =>
    simp only [after_ticks, ticks_append, ticks_tick_wait, ih]
    simp [ticks]

theorem after_ticks_missed_le (clock : Nat → Timespec × Timespec) (cfg : Config) :
    ∀ n, (after_ticks clock cfg n).1 ≤ n := by
  intro n
  induction n with
  | zero => exact le_rfl
  | succ n ih =>
    simp only [after_ticks]
    exact le_trans (tick_wait_missed_le _ _ _ _ _ _) (by omega)

theorem sampling_eq_flat (sample : Nat → State → Run State Int)
    (clock : Nat → Timespec × Timespec) (cfg : Config) (st : State) (h : cfg.freq ≠ 0) :
    sampling sample clock cfg st =
      match flat_loop sample clock cfg (cfg.freq * cfg.time) 0 ⟨0, [], st⟩ with
      | Run.ret Flow.next m => Run.ret 0 m
      | Run.ret (Flow.exit code) m => Run.ret code m
      | Run.fault m => Run.fault m
      | Run.out_of_fuel => Run.out_of_fuel := by
  unfold sampling
  rw [if_neg h, outer_loop_eq_flat, Nat.zero_mul, Nat.mul_comm]

/-! ## Theorems: the memory translation cache -/

theorem find_page_base (b : Nat) : ∀ (l : List mapped_page) (e : mapped_page),
    find_page b l = some e → e.base = b := by
  intro l
  induction l with
  | nil => intro e h; simp [find_page] at h
  | cons x rest ih =>
    intro e h
    unfold find_page at h
    by_cases hb : b = x.base
    · rw [if_pos hb] at h
      cases h
      exact hb.symm
    · rw [if_neg hb] at h
      exact ih e h

theorem find_page_append_some (b : Nat) (l' : List mapped_page) :
    ∀ (l : List mapped_page) (e : mapped_page),
    find_page b l = some e → find_page b (l ++ l') = some e := by
  intro l
  induction l with
  | nil => intro e h; simp [find_page] at h
  | cons x rest ih =>
    intro e h
    simp only [List.cons_append, find_page] at h ⊢
    by_cases hb : b = x.base
    · rw [if_pos hb] at h ⊢; exact h
    · rw [if_neg hb] at h ⊢; exact ih e h

theorem find_page_none_not_mem (b : Nat) : ∀ (l : List mapped_page),
    find_page b l = none → b ∉ l.map mapped_page.base := by
  intro l
  induction l with
  | nil => intro _; simp
  | cons x rest ih =>
    intro h
    unfold find_page at h
    by_cases hb : b = x.base
    · rw [if_pos hb] at h; cases h
    · rw [if_neg hb] at h
      simp only [List.map_cons, List.mem_cons, not_or]
      exact ⟨hb, ih h⟩

theorem find_page_append_new (b : Nat) (e : mapped_page) (he : e.base = b) :
    ∀ (l : List mapped_page), find_page b l = none → find_page b (l ++ [e]) = some e := by
  intro l
  induction l with
  | nil => intro _; simp [find_page, he]
  | cons x rest ih =>
    intro h
    simp only [List.cons_append, find_page] at h ⊢
    by_cases hb : b = x.base
    · rw [if_pos hb] at h; cases h
    · rw [if_neg hb] at h ⊢; exact ih h

/-- A hit: the page is in the list, the call returns the cached buffer plus
the offset and changes nothing. -/
theorem guest_to_host_hit (xc : Xen) (vcpu gaddr : Nat) (st : State) (e : mapped_page)
    (h : find_page (page_base gaddr) st.map_head = some e) :
    guest_to_host xc vcpu gaddr st = (e.buf + page_offset gaddr, st) := by
  unfold guest_to_host
  simp only [h]

/-- A miss: the result is decided by `malloc` and by what the mapping call
returns for whatever the translation returned. -/
theorem guest_to_host_miss (xc : Xen) (vcpu gaddr : Nat) (st : State)
    (h : find_page (page_base gaddr) st.map_head = none) :
    guest_to_host xc vcpu gaddr st =
      if xc.malloc = false then (0, st.called Call.malloc)
      else if xc.map_foreign_range (xc.translate_foreign_address vcpu (page_base gaddr)) = 0 then
        (0, ((st.called Call.malloc).called
            (Call.xc_translate_foreign_address vcpu (page_base gaddr))).called
            (Call.xc_map_foreign_range (xc.translate_foreign_address vcpu (page_base gaddr))))
      else
        (xc.map_foreign_range (xc.translate_foreign_address vcpu (page_base gaddr))
            + page_offset gaddr,
          { ((st.called Call.malloc).called
              (Call.xc_translate_foreign_address vcpu (page_base gaddr))).called
              (Call.xc_map_foreign_range (xc.translate_foreign_address vcpu (page_base gaddr)))
            with map_head := st.map_head ++
              [⟨page_base gaddr, xc.translate_foreign_address vcpu (page_base gaddr),
                xc.map_foreign_range (xc.translate_foreign_address vcpu (page_base gaddr))⟩] }) := by
  unfold guest_to_host
  simp only [h]
  rfl

/-- The list only grows, at its end. -/
theorem guest_to_host_map_head (xc : Xen) (vcpu gaddr : Nat) (st : State) :
    (guest_to_host xc vcpu gaddr st).2.map_head = st.map_head ∨
    (find_page (page_base gaddr) st.map_head = none ∧
      ∃ e, e.base = page_base gaddr ∧ e.buf ≠ 0 ∧
        (guest_to_host xc vcpu gaddr st).1 = e.buf + page_offset gaddr ∧
        (guest_to_host xc vcpu gaddr st).2.map_head = st.map_head ++ [e]) := by
  cases h : find_page (page_base gaddr) st.map_head with
  | some e => left; rw [guest_to_host_hit xc vcpu gaddr st e h]
  | none =>
    rw [guest_to_host_miss xc vcpu gaddr st h]
    by_cases hm : xc.malloc = false
    · left; rw [if_pos hm]; rfl
    · rw [if_neg hm]
      by_cases hb : xc.map_foreign_range
          (xc.translate_foreign_address vcpu (page_base gaddr)) = 0
      · left; rw [if_pos hb]; rfl
      · right
        rw [if_neg hb]
        exact ⟨rfl, ⟨page_base gaddr, xc.translate_foreign_address vcpu (page_base gaddr),
          xc.map_foreign_range (xc.translate_foreign_address vcpu (page_base gaddr))⟩,
          rfl, hb, rfl, rfl⟩

/-- A successful call leaves the page of its address in the list, with the
buffer it returned. -/
theorem guest_to_host_success (xc : Xen) (vcpu gaddr : Nat) (st : State)
    (h : (guest_to_host xc vcpu gaddr st).1 ≠ 0) :
    ∃ e, find_page (page_base gaddr) (guest_to_host xc vcpu gaddr st).2.map_head = some e ∧
      (guest_to_host xc vcpu gaddr st).1 = e.buf + page_offset gaddr := by
  cases hf : find_page (page_base gaddr) st.map_head with
  | some e =>
    rw [guest_to_host_hit xc vcpu gaddr st e hf]
    exact ⟨e, hf, rfl⟩
  | none =>
    rw [guest_to_host_miss xc vcpu gaddr st hf] at h ⊢
    by_cases hm : xc.malloc = false
    · rw [if_pos hm] at h; exact absurd rfl h
    · rw [if_neg hm] at h ⊢
      by_cases hb : xc.map_foreign_range
          (xc.translate_foreign_address vcpu (page_base gaddr)) = 0
      · rw [if_pos hb] at h; exact absurd rfl h
      · rw [if_neg hb]
        exact ⟨⟨page_base gaddr, xc.translate_foreign_address vcpu (page_base gaddr),
          xc.map_foreign_range (xc.translate_foreign_address vcpu (page_base gaddr))⟩,
          find_page_append_new (page_base gaddr) ⟨page_base gaddr,
            xc.translate_foreign_address vcpu (page_base gaddr),
            xc.map_foreign_range (xc.translate_foreign_address vcpu (page_base gaddr))⟩
            rfl st.map_head hf, rfl⟩

theorem guest_to_host_keeps (xc : Xen) (vcpu gaddr : Nat) (st : State) (b : Nat)
    (e : mapped_page) (h : find_page b st.map_head = some e) :
    find_page b (guest_to_host xc vcpu gaddr st).2.map_head = some e := by
  rcases guest_to_host_map_head xc vcpu gaddr st with h1 | ⟨_, e', _, _, _, h1⟩
  · rw [h1]; exact h
  · rw [h1]; exact find_page_append_some b _ _ e h

theorem guest_to_host_calls_keeps (b : Nat) (e : mapped_page) :
    ∀ (cs : List (Xen × Nat × Nat)) (st : State), find_page b st.map_head = some e →
      find_page b (guest_to_host_calls cs st).map_head = some e := by
  intro cs
  induction cs with
  | nil => intro st h; exact h
  | cons c rest ih =>
    intro st h
    obtain ⟨xc, vcpu, gaddr⟩ := c
    exact ih _ (guest_to_host_keeps xc vcpu gaddr st b e h)

theorem guest_to_host_nodup (xc : Xen) (vcpu gaddr : Nat) (st : State)
    (h : (st.map_head.map mapped_page.base).Nodup) :
    ((guest_to_host xc vcpu gaddr st).2.map_head.map mapped_page.base).Nodup := by
  rcases guest_to_host_map_head xc vcpu gaddr st with h1 | ⟨hn, e, he, _, _, h1⟩
  · rw [h1]; exact h
  · rw [h1, List.map_append, List.map_singleton, he]
    refine List.Nodup.append h (List.nodup_singleton _) ?_
    intro x hx hx'
    rw [List.mem_singleton] at hx'
    subst hx'
    exact find_page_none_not_mem _ _ hn hx

theorem guest_to_host_calls_nodup :
    ∀ (cs : List (Xen × Nat × Nat)) (st : State), (st.map_head.map mapped_page.base).Nodup →
      ((guest_to_host_calls cs st).map_head.map mapped_page.base).Nodup := by
  intro cs
  induction cs with
  | nil => intro st h; exact h
  | cons c rest ih =>
    intro st h
    obtain ⟨xc, vcpu, gaddr⟩ := c
    exact ih _ (guest_to_host_nodup xc vcpu gaddr st h)

/-- C2: in every sequence of `guest_to_host` calls from program start, once a
call for an address `a` has succeeded, every later call for an address `a'`
of the same page returns the same buffer plus the in-page offset of `a'`,
makes no call and leaves the state (list and call record) as it was, and the
list never holds two entries with the same base address. -/
theorem cache_identity (pre mid : List (Xen × Nat × Nat)) (xc xc' : Xen)
    (vcpu vcpu' a a' : Nat)
    (hsucc : (guest_to_host xc vcpu a (guest_to_host_calls pre State.init)).1 ≠ 0)
    (hpage : page_base a' = page_base a) :
    (guest_to_host xc' vcpu' a' (guest_to_host_calls mid
        (guest_to_host xc vcpu a (guest_to_host_calls pre State.init)).2)).1
      = ((guest_to_host xc vcpu a (guest_to_host_calls pre State.init)).1 - page_offset a)
          + page_offset a' ∧
    (guest_to_host xc' vcpu' a' (guest_to_host_calls mid
        (guest_to_host xc vcpu a (guest_to_host_calls pre State.init)).2)).2
      = guest_to_host_calls mid
          (guest_to_host xc vcpu a (guest_to_host_calls pre State.init)).2 ∧
    ((guest_to_host xc' vcpu' a' (guest_to_host_calls mid
        (guest_to_host xc vcpu a (guest_to_host_calls pre State.init)).2)).2.map_head.map
      mapped_page.base).Nodup := by
  obtain ⟨e, he, hr⟩ := guest_to_host_success xc vcpu a _ hsucc
  have hk := guest_to_host_calls_keeps (page_base a) e mid _ he
  rw [← hpage] at hk
  have hhit := guest_to_host_hit xc' vcpu' a' _ e hk
  refine ⟨?_, ?_, ?_⟩
  · rw [hhit, hr]; simp
  · rw [hhit]
  · rw [hhit]
    apply guest_to_host_calls_nodup
    apply guest_to_host_nodup
    apply guest_to_host_calls_nodup
    exact List.nodup_nil

/-- The witness of C2: after the chain guest's stack page has been mapped for
the address 0x7000, a later call for 0x7fe0, by another vcpu and with another
call for another page in between, returns the same buffer and changes
nothing. -/
theorem cache_identity_witness :
    (guest_to_host chain_guest 1 0x7fe0
        (guest_to_host_calls [(unmapped_guest, 0, 0x9000)]
          (guest_to_host chain_guest 0 0x7000 (guest_to_host_calls [] State.init)).2)).1
      = 0x10fe0 ∧
    (guest_to_host chain_guest 1 0x7fe0
        (guest_to_host_calls [(unmapped_guest, 0, 0x9000)]
          (guest_to_host chain_guest 0 0x7000 (guest_to_host_calls [] State.init)).2)).2
      = guest_to_host_calls [(unmapped_guest, 0, 0x9000)]
          (guest_to_host chain_guest 0 0x7000 (guest_to_host_calls [] State.init)).2 :=
  ⟨(cache_identity [] [(unmapped_guest, 0, 0x9000)] chain_guest chain_guest 0 1 0x7000 0x7fe0
      (by decide) (by decide)).1.trans (by decide),
   (cache_identity [] [(unmapped_guest, 0, 0x9000)] chain_guest chain_guest 0 1 0x7000 0x7fe0
      (by decide) (by decide)).2.1⟩

/-- On a miss with memory for the entry, the call fails exactly when the
mapping call returns `NULL`: what the translation returned is passed on
unchecked. -/
theorem guest_to_host_miss_null_iff (xc : Xen) (vcpu gaddr : Nat) (st : State)
    (h : find_page (page_base gaddr) st.map_head = none) (hm : xc.malloc = true) :
    (guest_to_host xc vcpu gaddr st).1 = 0 ↔
      xc.map_foreign_range (xc.translate_foreign_address vcpu (page_base gaddr)) = 0 := by
  rw [guest_to_host_miss xc vcpu gaddr st h]
  simp only [hm, Bool.true_eq_false, if_false]
  by_cases hb : xc.map_foreign_range (xc.translate_foreign_address vcpu (page_base gaddr)) = 0
  · simp [hb]
  · simp [hb]

/-- C7, at a call the code gets wrong: the cache is empty, the translation of
the page of 0x7010 fails (returns frame number 0) and mapping frame 0
succeeds; `guest_to_host` returns the non-null pointer 0x10010 and enters the
page with frame number 0 in its list. -/
theorem translation_failure_not_reported :
    untranslated_guest.translate_foreign_address 0 (page_base 0x7010) = 0 ∧
    guest_to_host untranslated_guest 0 0x7010 State.init =
      (0x10010,
        ⟨[⟨0x7000, 0, 0x10000⟩], [],
          [Call.malloc, Call.xc_translate_foreign_address 0 0x7000,
            Call.xc_map_foreign_range 0]⟩) := by
  constructor <;> decide

/-! ## Theorems: the unwinder and the sampling step -/

theorem filter_direct_called (st : State) (c : Call) :
    (st.called c).calls.filter Call.direct
      = st.calls.filter Call.direct ++ (if c.direct then [c] else []) := by
  unfold State.called
  simp only [List.filter_append]
  cases h : c.direct <;> simp [List.filter, h]

theorem guest_to_host_direct (xc : Xen) (vcpu gaddr : Nat) (st : State) :
    (guest_to_host xc vcpu gaddr st).2.calls.filter Call.direct
      = st.calls.filter Call.direct := by
  cases h : find_page (page_base gaddr) st.map_head with
  | some e => rw [guest_to_host_hit xc vcpu gaddr st e h]
  | none =>
    rw [guest_to_host_miss xc vcpu gaddr st h]
    split
    · simp [filter_direct_called, Call.direct]
    · split
      · simp [filter_direct_called, Call.direct]
      · simp [filter_direct_called, Call.direct]

theorem walk_pass_direct (xc : Xen) (vcpu wordsize fp retaddr : Nat) (st st' : State)
    (next : Nat × Nat) (h : walk_pass xc vcpu wordsize fp retaddr st = Run.ret next st') :
    st'.calls.filter Call.direct = st.calls.filter Call.direct := by
  unfold walk_pass at h
  simp only at h
  split at h
  · cases h
  · split at h
    · cases h
    · cases h
      simp only [filter_direct_called, Call.direct, State.fprintf]
      simpa using guest_to_host_direct xc vcpu fp st

theorem walk_loop_direct (xc : Xen) (vcpu wordsize : Nat) :
    ∀ (fuel fp retaddr : Nat) (st st' : State),
      walk_loop xc vcpu wordsize fuel fp retaddr st = Run.ret () st' →
      st'.calls.filter Call.direct = st.calls.filter Call.direct := by
  intro fuel
  induction fuel with
  | zero =>
    intro fp retaddr st st' h
    unfold walk_loop at h
    split at h
    · cases h; rfl
    · cases h
  | succ n ih =>
    intro fp retaddr st st' h
    unfold walk_loop at h
    split at h
    · cases h; rfl
    · split at h
      · rename_i next s1 hp
        rw [ih _ _ _ _ h]
        exact walk_pass_direct xc vcpu wordsize fp retaddr st s1 next hp
      · cases h
      · cases h

theorem walk_stack_direct (fuel : Nat) (xc : Xen) (vcpu wordsize : Nat) (st st' : State)
    (h : walk_stack fuel xc vcpu wordsize st = Run.ret () st') :
    st'.calls.filter Call.direct = st.calls.filter Call.direct := by
  unfold walk_stack at h
  simp only at h
  split at h
  · cases h
    simp [filter_direct_called, Call.direct]
  · split at h
    · rename_i s1 hw
      cases h
      have := walk_loop_direct xc vcpu wordsize _ _ _ _ _ hw
      simp only [State.fprintf] at this ⊢
      rw [this]
      simp [filter_direct_called, Call.direct]
    · cases h
    · cases h

/-- When each `walk_stack` call of the loop returns, `sts v` being the state
before the call for vcpu `v` and `sts (v+1)` the state after it, the loop
returns in the state after the last call. -/
theorem vcpu_loop_returns (walk_fuel : Nat) (xc : Xen) (max_vcpu_id wordsize : Nat)
    (sts : Nat → State) (hmax : max_vcpu_id + 1 < 2 ^ 32)
    (hwalk : ∀ v, v ≤ max_vcpu_id →
      walk_stack walk_fuel xc v wordsize ((sts v).called (Call.walk_stack v))
        = Run.ret () (sts (v + 1))) :
    ∀ n v, v ≤ max_vcpu_id + 1 → max_vcpu_id + 1 - v < n →
      vcpu_loop walk_fuel xc max_vcpu_id wordsize n v (sts v)
        = Run.ret () (sts (max_vcpu_id + 1)) := by
  intro n
  induction n with
  | zero => intro v _ h; omega
  | succ n ih =>
    intro v hv hn
    unfold vcpu_loop
    by_cases hle : v ≤ max_vcpu_id
    · rw [if_pos hle, hwalk v hle]
      simp only
      have e : (v + 1) % 2 ^ 32 = v + 1 := Nat.mod_eq_of_lt (by omega)
      rw [e]
      exact ih (v + 1) (by omega) (by omega)
    · rw [if_neg hle]
      have e : v = max_vcpu_id + 1 := by omega
      rw [e]

theorem walk_states_direct (walk_fuel : Nat) (xc : Xen) (max_vcpu_id wordsize : Nat)
    (sts : Nat → State)
    (hwalk : ∀ v, v ≤ max_vcpu_id →
      walk_stack walk_fuel xc v wordsize ((sts v).called (Call.walk_stack v))
        = Run.ret () (sts (v + 1))) :
    ∀ n, n ≤ max_vcpu_id + 1 →
      (sts n).calls.filter Call.direct
        = (sts 0).calls.filter Call.direct ++ (List.range n).map Call.walk_stack := by
  intro n
  induction n with
  | zero => intro _; simp
  | succ n ih =>
    intro hn
    rw [walk_stack_direct _ _ _ _ _ _ (hwalk n (by omega)), filter_direct_called,
      ih (by omega), List.range_succ, List.map_append]
    simp [Call.direct]

/-- With the largest `unsigned int` as `max_vcpu_id` the loop condition
`vcpu <= max_vcpu_id` never fails: the loop does not return, whatever the
step budget. -/
theorem vcpu_loop_wraps (walk_fuel : Nat) (xc : Xen) (wordsize : Nat) :
    ∀ n v st, v < 2 ^ 32 → ∀ st',
      vcpu_loop walk_fuel xc (2 ^ 32 - 1) wordsize n v st ≠ Run.ret () st' := by
  intro n
  induction n with
  | zero =>
    intro v st hv st'
    unfold vcpu_loop
    rw [if_pos (by omega)]
    exact fun h => by cases h
  | succ n ih =>
    intro v st hv st'
    unfold vcpu_loop
    rw [if_pos (by omega)]
    split
    · exact ih _ _ (Nat.mod_lt _ (by norm_num)) st'
    · exact fun h => by cases h
    · exact fun h => by cases h

/-- In a tick whose pause succeeds and in which every `walk_stack` call
returns, `do_stack_trace` returns after the unpause, -7 if the unpause fails
and 0 otherwise, and the calls it made itself are the pause, the walks in
increasing order and the unpause. -/
theorem do_stack_trace_of_walks (fuel : Nat) (t : Tick) (max_vcpu_id wordsize : Nat)
    (st : State) (sts : Nat → State) (hp : 0 ≤ t.pause) (hmax : max_vcpu_id + 1 < 2 ^ 32)
    (hfuel : max_vcpu_id + 1 < fuel) (h0 : sts 0 = st.called Call.xc_domain_pause)
    (hwalk : ∀ v, v ≤ max_vcpu_id →
      walk_stack fuel t.xc v wordsize ((sts v).called (Call.walk_stack v))
        = Run.ret () (sts (v + 1))) :
    do_stack_trace fuel t max_vcpu_id wordsize st
      = Run.ret (if t.unpause < 0 then -7 else 0)
          ((sts (max_vcpu_id + 1)).called Call.xc_domain_unpause) ∧
    ((sts (max_vcpu_id + 1)).called Call.xc_domain_unpause).calls.filter Call.direct
      = st.calls.filter Call.direct ++ [Call.xc_domain_pause]
          ++ (List.range (max_vcpu_id + 1)).map Call.walk_stack
          ++ [Call.xc_domain_unpause] := by
  have hloop := vcpu_loop_returns fuel t.xc max_vcpu_id wordsize sts hmax hwalk fuel 0
    (by omega) (by omega)
  rw [h0] at hloop
  constructor
  · unfold do_stack_trace
    simp only [not_lt.mpr hp, if_false, hloop]
    split <;> rfl
  · rw [filter_direct_called,
      walk_states_direct fuel t.xc max_vcpu_id wordsize sts hwalk _ le_rfl, h0,
      filter_direct_called]
    simp [Call.direct]

/-- C5 (amended): a tick whose pause fails makes that one call and returns
-7.  In a tick whose pause succeeds, whose `max_vcpu_id` is below the largest
`unsigned int` and in which every `walk_stack` call returns, `do_stack_trace`
calls, in this order and nothing else itself: pause once, `walk_stack` for the
vcpus 0, 1, .., `max_vcpu_id` once each, unpause once; it returns -7 if the
unpause fails and 0 otherwise.  In a run of `main` in which the calls of the
ticks before `k0` return 0, each started in the state the one before left,
and the call of tick `k0` returns a non-zero value, `main` returns that value
at once: the call is the last thing it did, the `k0 + 1`-th of its kind, and
the state is the one the call left. -/
theorem do_stack_trace_call_sequence (fuel : Nat) (t : Tick) (max_vcpu_id wordsize : Nat)
    (st : State) :
    (t.pause < 0 →
      do_stack_trace fuel t max_vcpu_id wordsize st
        = Run.ret (-7) (st.called Call.xc_domain_pause)) ∧
    (0 ≤ t.pause → max_vcpu_id + 1 < 2 ^ 32 → max_vcpu_id + 1 < fuel →
      ∀ sts : Nat → State, sts 0 = st.called Call.xc_domain_pause →
      (∀ v, v ≤ max_vcpu_id →
        walk_stack fuel t.xc v wordsize ((sts v).called (Call.walk_stack v))
          = Run.ret () (sts (v + 1))) →
      do_stack_trace fuel t max_vcpu_id wordsize st
        = Run.ret (if t.unpause < 0 then -7 else 0)
            ((sts (max_vcpu_id + 1)).called Call.xc_domain_unpause) ∧
      ((sts (max_vcpu_id + 1)).called Call.xc_domain_unpause).calls.filter Call.direct
        = st.calls.filter Call.direct ++ [Call.xc_domain_pause]
            ++ (List.range (max_vcpu_id + 1)).map Call.walk_stack
            ++ [Call.xc_domain_unpause]) ∧
    (∀ (world : Nat → Tick) (cfg : Config) (before : Nat → State) (k0 : Nat) (r : Int)
      (s' : State), before 0 = st → r ≠ 0 → k0 < cfg.freq * cfg.time →
      (∀ k, k < k0 →
        do_stack_trace fuel (world k) max_vcpu_id wordsize (before k)
          = Run.ret 0 (before (k + 1))) →
      do_stack_trace fuel (world k0) max_vcpu_id wordsize (before k0) = Run.ret r s' →
      main_loop fuel world max_vcpu_id wordsize cfg st
        = Run.ret r
            ⟨(after_ticks (world_clock world) cfg k0).1,
              (after_ticks (world_clock world) cfg k0).2
                ++ [Action.clock_gettime, Action.do_stack_trace], s'⟩ ∧
      ticks ((after_ticks (world_clock world) cfg k0).2
          ++ [Action.clock_gettime, Action.do_stack_trace]) = k0 + 1) := by
  refine ⟨?_, ?_, ?_⟩
  · intro hp
    unfold do_stack_trace
    simp only [hp, if_true]
  · intro hp hmax hfuel sts h0 hwalk
    exact do_stack_trace_of_walks fuel t max_vcpu_id wordsize st sts hp hmax hfuel h0 hwalk
  · intro world cfg before k0 r s' hb hr hk h hk0
    have hf : cfg.freq ≠ 0 := by
      intro h; rw [h] at hk; simp at hk
    constructor
    · unfold main_loop
      rw [sampling_eq_flat _ _ cfg st hf, ← hb]
      have := flat_loop_chain_exit
        (fun k s => do_stack_trace fuel (world k) max_vcpu_id wordsize s)
        (fun k => ((world k).begin_, (world k).end_)) cfg before (cfg.freq * cfg.time)
        k0 r s' hr hk h hk0
      rw [this]
      rfl
    · rw [ticks_append, ticks_after_ticks]
      simp [ticks]


theorem cyclic_guest_frame (vcpu : Nat) (st : State)
    (h : ∀ e, find_page 0x7000 st.map_head = some e → e.buf = 0x10000) :
    (guest_to_host cyclic_guest vcpu 0x7000 st).1 = 0x10000 ∧
    ∀ e, find_page 0x7000 (guest_to_host cyclic_guest vcpu 0x7000 st).2.map_head = some e →
      e.buf = 0x10000 := by
  have hb : page_base 0x7000 = 0x7000 := by decide
  have ho : page_offset 0x7000 = 0 := by decide
  cases hf : find_page (page_base 0x7000) st.map_head with
  | some e =>
    rw [guest_to_host_hit cyclic_guest vcpu 0x7000 st e hf, ho]
    rw [hb] at hf
    exact ⟨by simp [h e hf], h⟩
  | none =>
    rw [guest_to_host_miss cyclic_guest vcpu 0x7000 st hf, hb]
    have hm : cyclic_guest.map_foreign_range
        (cyclic_guest.translate_foreign_address vcpu 0x7000) = 0x10000 := rfl
    have hmal : cyclic_guest.malloc = true := rfl
    simp only [hm, hmal, ho]
    refine ⟨by simp, ?_⟩
    intro e he
    rw [hb] at hf
    simp only [Bool.true_eq_false, if_false] at he
    have := find_page_append_new 0x7000 ⟨0x7000,
      cyclic_guest.translate_foreign_address vcpu 0x7000, 0x10000⟩ rfl st.map_head hf
    simp only [OfNat.ofNat_ne_zero, if_false] at he
    rw [this] at he
    cases he
    rfl

/-- The walk of the cyclic frame chain does not end, whatever the budget. -/
theorem cyclic_walk_loop (vcpu : Nat) :
    ∀ (fuel retaddr : Nat) (st : State),
      (∀ e, find_page 0x7000 st.map_head = some e → e.buf = 0x10000) →
      walk_loop cyclic_guest vcpu 8 fuel 0x7000 retaddr st = Run.out_of_fuel := by
  intro fuel
  induction fuel with
  | zero => intro retaddr st _; rfl
  | succ n ih =>
    intro retaddr st h
    obtain ⟨h1, h2⟩ := cyclic_guest_frame vcpu st h
    have l1 : load cyclic_guest.host 0x10000 8 = some 0x7000 := by decide
    have l2 : load cyclic_guest.host (0x10000 + 8) 8 = some 0 := by decide
    have e1 : store_low 0x7000 8 0x7000 = 0x7000 := by decide
    unfold walk_loop
    rw [if_neg (by decide)]
    unfold walk_pass
    simp only [h1, l1, l2, e1]
    exact ih _ _ h2

theorem cyclic_walk_stack (fuel : Nat) (st : State)
    (h : ∀ e, find_page 0x7000 st.map_head = some e → e.buf = 0x10000) :
    walk_stack fuel cyclic_guest 0 8 st = Run.out_of_fuel := by
  unfold walk_stack
  have hf : frame_pointer (cyclic_guest.vcpu_getcontext 0).2 8 = 0x7000 := by decide
  have hr : ¬ (cyclic_guest.vcpu_getcontext 0).1 < 0 := by decide
  simp only [hf, hr, if_false]
  rw [cyclic_walk_loop 0 fuel _ (st.called (Call.xc_vcpu_getcontext 0)) h]

theorem cyclic_do_stack_trace (fuel : Nat) :
    do_stack_trace fuel (quiet_tick cyclic_guest) 0 8 State.init = Run.out_of_fuel := by
  unfold do_stack_trace quiet_tick
  simp only [show ¬ ((0 : Int) < 0) by decide, if_false]
  cases fuel with
  | zero => rfl
  | succ n =>
    unfold vcpu_loop
    rw [if_pos (le_refl 0), cyclic_walk_stack _ _
      (by intro e he; simp [State.called, State.init, find_page] at he)]

/-- With the largest `unsigned int` as `max_vcpu_id`, a tick whose pause
succeeds never returns. -/
theorem wrapping_do_stack_trace (fuel : Nat) (t : Tick) (wordsize : Nat) (st st' : State)
    (r : Int) (hp : 0 ≤ t.pause) :
    do_stack_trace fuel t (2 ^ 32 - 1) wordsize st ≠ Run.ret r st' := by
  intro h
  unfold do_stack_trace at h
  simp only at h
  split at h
  · omega
  · split at h
    · rename_i s1 hl
      exact vcpu_loop_wraps fuel t.xc wordsize fuel 0 _ (by norm_num) s1 hl
    · cases h
    · cases h

/-- When `do_stack_trace` returns, it returns 0 if its pause and its unpause
both succeeded and -7 otherwise. -/
theorem do_stack_trace_result (fuel : Nat) (t : Tick) (max_vcpu_id wordsize : Nat)
    (st st' : State) (r : Int)
    (h : do_stack_trace fuel t max_vcpu_id wordsize st = Run.ret r st') :
    (r = 0 ↔ 0 ≤ t.pause ∧ 0 ≤ t.unpause) ∧ (r = 0 ∨ r = -7) := by
  unfold do_stack_trace at h
  simp only at h
  split at h
  · cases h
    constructor
    · constructor
      · intro h0; cases h0
      · intro h0; omega
    · exact Or.inr rfl
  · split at h
    · split at h
      · cases h
        constructor
        · constructor
          · intro h0; cases h0
          · intro h0; omega
        · exact Or.inr rfl
      · cases h
        exact ⟨⟨fun _ => ⟨by omega, by omega⟩, fun _ => rfl⟩, Or.inl rfl⟩
    · cases h
    · cases h


/-- C5 as stated fails: in a tick on a guest whose frame chain is cyclic the
first `walk_stack` call does not return, and with the largest `unsigned int`
as `max_vcpu_id` the loop over the vcpus does not end; in both ticks
`do_stack_trace` never returns, whatever the step budget, so no unpause
follows the pause. -/
theorem do_stack_trace_without_unpause :
    (¬ ∃ fuel r s,
      do_stack_trace fuel (quiet_tick cyclic_guest) 0 8 State.init = Run.ret r s) ∧
    (¬ ∃ fuel r s,
      do_stack_trace fuel (quiet_tick idle_guest) (2 ^ 32 - 1) 8 State.init = Run.ret r s) := by
  constructor
  · rintro ⟨fuel, r, s, h⟩
    rw [cyclic_do_stack_trace] at h
    cases h
  · rintro ⟨fuel, r, s, h⟩
    exact wrapping_do_stack_trace fuel (quiet_tick idle_guest) 8 State.init s r
      (le_refl 0) h

/-- The witness of C5: a tick on the two vcpus of the chain guest makes the
calls pause, `walk_stack 0`, `walk_stack 1`, unpause and returns 0; and when
on the chain guest the unpause of tick 1 fails, at 2 Hz over 3 s, `main`
returns -7 right after its second call of `do_stack_trace`, in the state
that call left. -/
theorem do_stack_trace_call_sequence_witness :
    (do_stack_trace 10 (quiet_tick chain_guest) 1 8 State.init
        = Run.ret 0 ((chain_states 2).called Call.xc_domain_unpause) ∧
      ((chain_states 2).called Call.xc_domain_unpause).calls.filter Call.direct
        = [Call.xc_domain_pause, Call.walk_stack 0, Call.walk_stack 1,
            Call.xc_domain_unpause]) ∧
    main_loop 10 failing_unpause_world 0 8 ⟨2, 3, false, ⟨0, 60000⟩⟩ State.init
      = Run.ret (-7)
          ⟨0, [Action.clock_gettime, Action.do_stack_trace, Action.clock_gettime,
            Action.nanosleep ⟨0, 499999500⟩, Action.clock_gettime, Action.do_stack_trace],
            chain_run 2⟩ :=
  ⟨(do_stack_trace_call_sequence 10 (quiet_tick chain_guest) 1 8 State.init).2.1
      (by decide) (by decide) (by decide) chain_states (by decide)
      (by intro v hv; interval_cases v <;> decide),
   ((do_stack_trace_call_sequence 10 (quiet_tick chain_guest) 0 8 State.init).2.2
      failing_unpause_world ⟨2, 3, false, ⟨0, 60000⟩⟩ chain_run 1 (-7) (chain_run 2)
      rfl (by decide) (by decide)
      (by intro k hk; interval_cases k; decide)
      (by decide)).1.trans (by decide)⟩

/-! ## Theorems: the number of ticks -/

theorem filter_direct_chain (fuel : Nat) (world : Nat → Tick) (max_vcpu_id wordsize : Nat)
    (before : Nat → State) (n : Nat)
    (hwalks : ∀ k, k < n →
      walks_return fuel (world k).xc max_vcpu_id wordsize (before k) (before (k + 1))) :
    ∀ j, j ≤ n → (before j).calls.filter Call.direct
      = (before 0).calls.filter Call.direct ++ repeated (tick_calls max_vcpu_id) j := by
  intro j
  induction j with
  | zero => intro _; simp [repeated]
  | succ j ih =>
    intro hj
    obtain ⟨sts, h0, hwalk, hend⟩ := hwalks j (by omega)
    rw [hend, filter_direct_called,
      walk_states_direct fuel (world j).xc max_vcpu_id wordsize sts hwalk _ le_rfl, h0,
      filter_direct_called, ih (by omega)]
    simp [Call.direct, repeated, tick_calls]

/-- C9 (amended): for every frequency `F` and duration `D` and every run in
which, in each of the `F * D` ticks, the pause and the unpause succeed and
every `walk_stack` call returns (with `max_vcpu_id` below the largest
`unsigned int`), `main` returns 0 after exactly `F * D` ticks: its trace is
that of `F * D` ticks, with `F * D` calls of `do_stack_trace`, each pass of
the outer loop running `F` of them; the state is the one the last tick left,
in which `do_stack_trace` has made its calls `F * D` times over; and the
missed-deadline counter is at most `F * D`.  With `F = 0` the division of
line 299 traps before the first tick. -/
theorem main_loop_runs_freq_times_time (fuel : Nat) (world : Nat → Tick)
    (max_vcpu_id wordsize : Nat) (cfg : Config) (st : State) (before : Nat → State)
    (hmax : max_vcpu_id + 1 < 2 ^ 32) (hfuel : max_vcpu_id + 1 < fuel)
    (h0 : before 0 = st)
    (hok : ∀ k, k < cfg.freq * cfg.time → 0 ≤ (world k).pause ∧ 0 ≤ (world k).unpause)
    (hwalks : ∀ k, k < cfg.freq * cfg.time →
      walks_return fuel (world k).xc max_vcpu_id wordsize (before k) (before (k + 1))) :
    (cfg.freq = 0 →
      main_loop fuel world max_vcpu_id wordsize cfg st = Run.fault ⟨0, [], st⟩) ∧
    (cfg.freq ≠ 0 →
      main_loop fuel world max_vcpu_id wordsize cfg st
        = Run.ret 0
            ⟨(after_ticks (world_clock world) cfg (cfg.freq * cfg.time)).1,
              (after_ticks (world_clock world) cfg (cfg.freq * cfg.time)).2,
              before (cfg.freq * cfg.time)⟩ ∧
      ticks (after_ticks (world_clock world) cfg (cfg.freq * cfg.time)).2
        = cfg.freq * cfg.time ∧
      (after_ticks (world_clock world) cfg (cfg.freq * cfg.time)).1 ≤ cfg.freq * cfg.time ∧
      (before (cfg.freq * cfg.time)).calls.filter Call.direct
        = st.calls.filter Call.direct
            ++ repeated (tick_calls max_vcpu_id) (cfg.freq * cfg.time)) ∧
    (∀ i m,
      outer_loop (fun k s => do_stack_trace fuel (world k) max_vcpu_id wordsize s)
          (world_clock world) cfg 1 i m
        = flat_loop (fun k s => do_stack_trace fuel (world k) max_vcpu_id wordsize s)
            (world_clock world) cfg cfg.freq (i * cfg.freq) m) := by
  refine ⟨?_, ?_, ?_⟩
  · intro hf
    unfold main_loop sampling
    rw [if_pos hf]
  · intro hf
    have hstep : ∀ k, k < cfg.freq * cfg.time →
        do_stack_trace fuel (world k) max_vcpu_id wordsize (before k)
          = Run.ret 0 (before (k + 1)) := by
      intro k hk
      obtain ⟨sts, hs0, hwalk, hend⟩ := hwalks k hk
      have h := (do_stack_trace_of_walks fuel (world k) max_vcpu_id wordsize (before k) sts
        (hok k hk).1 hmax hfuel hs0 hwalk).1
      rw [if_neg (not_lt.mpr (hok k hk).2), ← hend] at h
      exact h
    refine ⟨?_, ticks_after_ticks _ _ _, after_ticks_missed_le _ _ _, ?_⟩
    · unfold main_loop
      rw [sampling_eq_flat _ _ cfg st hf, ← h0]
      have := flat_loop_chain
        (fun k s => do_stack_trace fuel (world k) max_vcpu_id wordsize s)
        (fun k => ((world k).begin_, (world k).end_)) cfg before (cfg.freq * cfg.time) hstep
      rw [this]
      rfl
    · rw [← h0]
      exact filter_direct_chain fuel world max_vcpu_id wordsize before _ hwalks _ le_rfl
  · intro i m
    rw [outer_loop_eq_flat, Nat.one_mul]

/-- C9 as stated fails: with every pause and unpause succeeding, at 1 Hz over
2 s, `main` on the guest whose stack page cannot be mapped dies in its first
tick, after one call of `do_stack_trace` instead of two; on the guest with a
cyclic frame chain, and with the largest `unsigned int` as `max_vcpu_id`,
`main` never returns, whatever the step budget. -/
theorem main_loop_stops_short :
    (0 ≤ (quiet_tick unmapped_guest).pause ∧ 0 ≤ (quiet_tick unmapped_guest).unpause ∧
      main_loop 5 (fun _ => quiet_tick unmapped_guest) 0 8 ⟨1, 2, false, ⟨0, 60000⟩⟩
          State.init
        = Run.fault ⟨0, [Action.clock_gettime, Action.do_stack_trace],
            ⟨[], ["0x400123"],
              [Call.xc_domain_pause, Call.walk_stack 0, Call.xc_vcpu_getcontext 0,
                Call.malloc, Call.xc_translate_foreign_address 0 0x7000,
                Call.xc_map_foreign_range 107, Call.memcpy 0 8]⟩⟩) ∧
    (¬ ∃ fuel r m,
      main_loop fuel (fun _ => quiet_tick cyclic_guest) 0 8 ⟨1, 2, false, ⟨0, 60000⟩⟩
        State.init = Run.ret r m) ∧
    (¬ ∃ fuel r m,
      main_loop fuel (fun _ => quiet_tick idle_guest) (2 ^ 32 - 1) 8
        ⟨1, 2, false, ⟨0, 60000⟩⟩ State.init = Run.ret r m) := by
  refine ⟨⟨by decide, by decide, by decide⟩, ?_, ?_⟩
  · rintro ⟨fuel, r, m, h⟩
    unfold main_loop sampling at h
    simp only [show ¬ (1 = 0) by decide, if_false, outer_loop, inner_loop, tick,
      cyclic_do_stack_trace, seq_next] at h
    cases h
  · rintro ⟨fuel, r, m, h⟩
    unfold main_loop sampling at h
    simp only [show ¬ (1 = 0) by decide, if_false, outer_loop, inner_loop, tick] at h
    cases hd : do_stack_trace fuel (quiet_tick idle_guest) (2 ^ 32 - 1) 8 State.init with
    | ret r' s' =>
      exact wrapping_do_stack_trace fuel (quiet_tick idle_guest) 8 State.init s' r'
        (le_refl 0) hd
    | fault s' => rw [hd] at h; simp [seq_next] at h
    | out_of_fuel => rw [hd] at h; simp [seq_next] at h

/-- The witness of C9: on vcpu 0 of the chain guest, at 2 Hz over 1 s, `main`
returns 0 after two ticks, each ending in a sleep for the rest of its half
second, in the state the second tick left. -/
theorem main_loop_runs_freq_times_time_witness :
    main_loop 10 chain_world 0 8 ⟨2, 1, false, ⟨0, 60000⟩⟩ State.init
      = Run.ret 0
          ⟨0, [Action.clock_gettime, Action.do_stack_trace, Action.clock_gettime,
            Action.nanosleep ⟨0, 499999500⟩, Action.clock_gettime, Action.do_stack_trace,
            Action.clock_gettime, Action.nanosleep ⟨0, 499999500⟩], chain_run 2⟩ ∧
    (chain_run 2).calls.filter Call.direct
      = [Call.xc_domain_pause, Call.walk_stack 0, Call.xc_domain_unpause,
          Call.xc_domain_pause, Call.walk_stack 0, Call.xc_domain_unpause] :=
  ⟨((main_loop_runs_freq_times_time 10 chain_world 0 8 ⟨2, 1, false, ⟨0, 60000⟩⟩ State.init
      chain_run (by decide) (by decide) rfl (by intro k _; exact ⟨le_refl 0, le_refl 0⟩)
      (by
        intro k hk
        have hk' : k < 2 := hk
        refine ⟨chain_run_inside k, rfl, ?_, ?_⟩
        · intro v hv
          have hv' : v = 0 := by omega
          subst hv'
          interval_cases k <;> decide
        · interval_cases k <;> decide)).2.1 (by decide)).1.trans (by decide),
   by decide⟩

/-! ## Theorems: the failing inputs -/

/-- C6, at a walk the code gets wrong: the page of the frame pointer 0x7000
cannot be mapped, so `guest_to_host` returns `NULL`; `walk_stack` writes the
pending address and then reads through the null pointer.  The process dies
there: in the tick, vcpu 1 is not walked and the guest is not unpaused. -/
theorem unmapped_frame_read_through_null :
    (guest_to_host unmapped_guest 0 0x7000
      (State.init.called (Call.xc_vcpu_getcontext 0))).1 = 0 ∧
    walk_stack 5 unmapped_guest 0 8 State.init =
      Run.fault ⟨[], ["0x400123"],
        [Call.xc_vcpu_getcontext 0, Call.malloc,
          Call.xc_translate_foreign_address 0 0x7000, Call.xc_map_foreign_range 107,
          Call.memcpy 0 8]⟩ ∧
    do_stack_trace 5 (quiet_tick unmapped_guest) 1 8 State.init =
      Run.fault ⟨[], ["0x400123"],
        [Call.xc_domain_pause, Call.walk_stack 0, Call.xc_vcpu_getcontext 0, Call.malloc,
          Call.xc_translate_foreign_address 0 0x7000, Call.xc_map_foreign_range 107,
          Call.memcpy 0 8]⟩ := by
  refine ⟨by decide, by decide, by decide⟩

/-- C1, at chains the code gets wrong: a 32-bit frame at 0x7ffc has its saved
frame pointer in one guest page and its return address in the next.  Both
pages resolve and hold the words the claim asks for, yet `walk_stack` reads
the return address from the host bytes that follow the first page's buffer:
where nothing is readable there the process dies after the first address
line; where other memory is readable the second address line is 0xaaaaaaaa
instead of the return address 0x401000. -/
theorem frame_across_pages_not_unwound :
    ((guest_to_host straddling_guest 0 0x7ffc State.init).1 = 0x10ffc ∧
      (guest_to_host straddling_guest 0 0x8000 State.init).1 = 0x20000 ∧
      load straddling_guest.host 0x10ffc 4 = some 0 ∧
      load straddling_guest.host 0x20000 4 = some 0x401000 ∧
      walk_stack 5 straddling_guest 0 4 State.init =
        Run.fault ⟨[⟨0x7000, 107, 0x10000⟩], ["0x400123"],
          [Call.xc_vcpu_getcontext 0, Call.malloc,
            Call.xc_translate_foreign_address 0 0x7000, Call.xc_map_foreign_range 107,
            Call.memcpy 0x10ffc 4, Call.memcpy 0x11000 4]⟩) ∧
    ((guest_to_host adjacent_guest 0 0x7ffc State.init).1 = 0x10ffc ∧
      (guest_to_host adjacent_guest 0 0x8000 State.init).1 = 0x20000 ∧
      load adjacent_guest.host 0x10ffc 4 = some 0x8010 ∧
      load adjacent_guest.host 0x20000 4 = some 0x401000 ∧
      load adjacent_guest.host 0x20010 4 = some 0 ∧
      walk_stack 5 adjacent_guest 0 4 State.init =
        Run.ret () ⟨[⟨0x7000, 107, 0x10000⟩, ⟨0x8000, 108, 0x20000⟩],
          ["0x400123", "0xaaaaaaaa", "1", ""],
          [Call.xc_vcpu_getcontext 0, Call.malloc,
            Call.xc_translate_foreign_address 0 0x7000, Call.xc_map_foreign_range 107,
            Call.memcpy 0x10ffc 4, Call.memcpy 0x11000 4,
            Call.malloc, Call.xc_translate_foreign_address 0 0x8000,
            Call.xc_map_foreign_range 108,
            Call.memcpy 0x20010 4, Call.memcpy 0x20014 4]⟩) := by
  refine ⟨⟨by decide, by decide, by decide, by decide, by decide⟩,
    ⟨by decide, by decide, by decide, by decide, by decide, by decide⟩⟩

/-- C8, on command lines the code gets wrong: with the positional arguments
in the order of the usage text, `<outfile> <domid>`, the file name is parsed
as the domain id and `main` returns -2, also for the output `-`; the
arguments are accepted in the opposite order, the first as the domain id and
the second as the output file. -/
theorem positional_arguments_swapped :
    main_args (fun _ => true) ["trace.txt", "5"] = Startup.exit (-2) ∧
    main_args (fun _ => true) ["-", "5"] = Startup.exit (-2) ∧
    main_args (fun _ => true) ["5", "trace.txt"] = Startup.go ⟨5, Outfile.path "trace.txt"⟩ ∧
    main_args (fun _ => true) ["5", "-"] = Startup.go ⟨5, Outfile.stdout⟩ ∧
    main_args (fun _ => true) ["7", "5"] = Startup.go ⟨7, Outfile.path "5"⟩ := by
  refine ⟨by decide, by decide, by decide, by decide, by decide⟩

/-! ## Theorems: the reads of one frame -/

/-- A read of `n + 1` bytes through a non-null pointer succeeds exactly when
each of its bytes is readable. -/
theorem load_isSome_iff (host : Nat → Option Nat) :
    ∀ (n p : Nat), p ≠ 0 →
      ((load host p (n + 1)).isSome ↔ ∀ k, k ≤ n → (host (p + k)).isSome) := by
  intro n
  induction n with
  | zero =>
    intro p hp
    unfold load
    rw [if_neg hp]
    unfold load
    cases h : host p <;> simp [h]
  | succ n ih =>
    intro p hp
    have ih' := ih (p + 1) (by omega)
    unfold load
    rw [if_neg hp]
    cases h : host p with
    | none =>
      simp only [Option.isSome_none, Bool.false_eq_true, false_iff, not_forall]
      exact ⟨0, Nat.zero_le _, by simp [h]⟩
    | some b =>
      cases h2 : load host (p + 1) (n + 1) with
      | none =>
        rw [h2] at ih'
        simp only [Option.isSome_none, Bool.false_eq_true, false_iff, not_forall] at ih' ⊢
        obtain ⟨k, hk, hk'⟩ := ih'
        refine ⟨k + 1, by omega, ?_⟩
        have e : p + (k + 1) = p + 1 + k := by omega
        rw [e]; exact hk'
      | some v =>
        rw [h2] at ih'
        simp only [Option.isSome_some, true_iff] at ih' ⊢
        intro k hk
        cases k with
        | zero => simp [h]
        | succ k =>
          have e : p + (k + 1) = p + 1 + k := by omega
          rw [e]; exact ih' k (by omega)

theorem memcpy_reads_append (l l' : List Call) :
    memcpy_reads (l ++ l') = memcpy_reads l ++ memcpy_reads l' := by
  induction l with
  | nil => rfl
  | cons c rest ih => cases c <;> simp [memcpy_reads, ih]

theorem guest_to_host_reads (xc : Xen) (vcpu gaddr : Nat) (st : State) :
    memcpy_reads (guest_to_host xc vcpu gaddr st).2.calls = memcpy_reads st.calls := by
  cases h : find_page (page_base gaddr) st.map_head with
  | some e => rw [guest_to_host_hit xc vcpu gaddr st e h]
  | none =>
    rw [guest_to_host_miss xc vcpu gaddr st h]
    split
    · simp [State.called, memcpy_reads_append, memcpy_reads]
    · split <;> simp [State.called, memcpy_reads_append, memcpy_reads]

/-- When the page of an address has an entry in the list after the call, the
call returned that entry's buffer plus the offset of the address in its page,
whether the entry was there before (a hit) or was made by this call. -/
theorem guest_to_host_of_entry (xc : Xen) (vcpu gaddr : Nat) (st : State) (e : mapped_page)
    (h : find_page (page_base gaddr) (guest_to_host xc vcpu gaddr st).2.map_head = some e) :
    (guest_to_host xc vcpu gaddr st).1 = e.buf + page_offset gaddr := by
  cases hf : find_page (page_base gaddr) st.map_head with
  | some e0 =>
    rw [guest_to_host_hit xc vcpu gaddr st e0 hf] at h ⊢
    simp only at h
    rw [hf] at h
    cases h
    rfl
  | none =>
    rw [guest_to_host_miss xc vcpu gaddr st hf] at h ⊢
    by_cases hm : xc.malloc = false
    · rw [if_pos hm] at h
      simp only [State.called] at h
      rw [hf] at h; cases h
    · rw [if_neg hm] at h ⊢
      by_cases hb : xc.map_foreign_range
          (xc.translate_foreign_address vcpu (page_base gaddr)) = 0
      · rw [if_pos hb] at h
        simp only [State.called] at h
        rw [hf] at h; cases h
      · rw [if_neg hb] at h ⊢
        simp only at h
        rw [find_page_append_new (page_base gaddr) ⟨page_base gaddr,
          xc.translate_foreign_address vcpu (page_base gaddr),
          xc.map_foreign_range (xc.translate_foreign_address vcpu (page_base gaddr))⟩
          rfl st.map_head hf] at h
        cases h
        rfl

/-- A read of at most a page through a non-null pointer into a readable
buffer succeeds when it lies inside the buffer. -/
theorem load_inside (host : Nat → Option Nat) (buf p n : Nat) (hbuf : buf ≠ 0)
    (hreadable : ∀ a, buf ≤ a → a < buf + XC_PAGE_SIZE → (host a).isSome)
    (hin : inside_buffer buf p n) : (load host p n).isSome := by
  unfold inside_buffer at hin
  cases n with
  | zero => rfl
  | succ n =>
    rw [load_isSome_iff host n p (by omega)]
    intro k hk
    exact hreadable _ (by omega) (by omega)

/-- C10: for width 4 or 8 and a non-zero frame pointer `fp` whose page is
mapped as one readable page-sized buffer `e.buf` (its entry in the list after
`guest_to_host`, found there or made by this call), the pass of the loop of
`walk_stack` for `fp` reads through the pointer `guest_to_host` returns,
`e.buf + fp mod 4096`: first `wordsize` bytes there and then, unless that read
traps, `wordsize` bytes right after.  Both reads are made and lie inside the
buffer if and only if `fp mod 4096 ≤ 4096 - 2 * wordsize`, and then the pass
returns. -/
theorem frame_reads_inside_iff (xc : Xen) (vcpu fp wordsize retaddr : Nat) (st : State)
    (e : mapped_page) (hw : wordsize = 4 ∨ wordsize = 8) (hfp : fp ≠ 0)
    (hentry : find_page (page_base fp) (guest_to_host xc vcpu fp st).2.map_head = some e)
    (hbuf : e.buf ≠ 0)
    (hreadable : ∀ a, e.buf ≤ a → a < e.buf + XC_PAGE_SIZE → (xc.host a).isSome) :
    (∀ fuel, walk_loop xc vcpu wordsize (fuel + 1) fp retaddr st =
      match walk_pass xc vcpu wordsize fp retaddr st with
      | Run.ret next s => walk_loop xc vcpu wordsize fuel next.1 next.2 s
      | Run.fault s => Run.fault s
      | Run.out_of_fuel => Run.out_of_fuel) ∧
    (guest_to_host xc vcpu fp st).1 = e.buf + fp % 4096 ∧
    ((inside_buffer e.buf (e.buf + fp % 4096) wordsize ∧
        inside_buffer e.buf (e.buf + fp % 4096 + wordsize) wordsize)
      ↔ fp % 4096 ≤ 4096 - 2 * wordsize) ∧
    ∃ (reads : List (Nat × Nat)) (s' : State),
      (walk_pass xc vcpu wordsize fp retaddr st = Run.fault s' ∨
        ∃ next, walk_pass xc vcpu wordsize fp retaddr st = Run.ret next s') ∧
      memcpy_reads s'.calls = memcpy_reads st.calls ++ reads ∧
      (reads = [(e.buf + fp % 4096, wordsize)] ∨
        reads = [(e.buf + fp % 4096, wordsize), (e.buf + fp % 4096 + wordsize, wordsize)]) ∧
      ((reads.length = 2 ∧ ∀ r ∈ reads, inside_buffer e.buf r.1 r.2)
        ↔ fp % 4096 ≤ 4096 - 2 * wordsize) ∧
      (fp % 4096 ≤ 4096 - 2 * wordsize →
        ∃ next, walk_pass xc vcpu wordsize fp retaddr st = Run.ret next s') := by
  have hg : (guest_to_host xc vcpu fp st).1 = e.buf + fp % 4096 :=
    guest_to_host_of_entry xc vcpu fp st e hentry
  have hoff : fp % 4096 < 4096 := Nat.mod_lt _ (by decide)
  have hw' : 0 < wordsize ∧ wordsize ≤ 8 := by rcases hw with h | h <;> omega
  have harith : (inside_buffer e.buf (e.buf + fp % 4096) wordsize ∧
      inside_buffer e.buf (e.buf + fp % 4096 + wordsize) wordsize)
      ↔ fp % 4096 ≤ 4096 - 2 * wordsize := by
    unfold inside_buffer XC_PAGE_SIZE
    omega
  have hreads0 : memcpy_reads ((guest_to_host xc vcpu fp st).2.fprintf [hex retaddr]).calls
      = memcpy_reads st.calls := guest_to_host_reads xc vcpu fp st
  refine ⟨?_, hg, harith, ?_⟩
  · intro fuel
    rw [walk_loop, if_neg hfp]
  · cases h1 : load xc.host (e.buf + fp % 4096) wordsize with
    | none =>
      have hnot : ¬ inside_buffer e.buf (e.buf + fp % 4096) wordsize := by
        intro hin
        have := load_inside xc.host e.buf _ wordsize hbuf hreadable hin
        rw [h1] at this
        cases this
      refine ⟨[(e.buf + fp % 4096, wordsize)], (((guest_to_host xc vcpu fp st).2.fprintf [hex retaddr]).called
          (Call.memcpy (e.buf + fp % 4096) wordsize)),
        Or.inl ?_, ?_, Or.inl rfl, ?_, ?_⟩
      · unfold walk_pass
        simp only [hg, h1]
      · simp only [State.called, memcpy_reads_append, memcpy_reads, hreads0]
      · constructor
        · intro h; simp at h
        · intro h; exact absurd (harith.2 h).1 hnot
      · intro h; exact absurd (harith.2 h).1 hnot
    | some w1 =>
      cases h2 : load xc.host (e.buf + fp % 4096 + wordsize) wordsize with
      | none =>
        have hnot : ¬ inside_buffer e.buf (e.buf + fp % 4096 + wordsize) wordsize := by
          intro hin
          have := load_inside xc.host e.buf _ wordsize hbuf hreadable hin
          rw [h2] at this
          cases this
        refine ⟨[(e.buf + fp % 4096, wordsize), (e.buf + fp % 4096 + wordsize, wordsize)],
          ((((guest_to_host xc vcpu fp st).2.fprintf [hex retaddr]).called
          (Call.memcpy (e.buf + fp % 4096) wordsize)).called
          (Call.memcpy (e.buf + fp % 4096 + wordsize) wordsize)),
          Or.inl ?_, ?_, Or.inr rfl, ?_, ?_⟩
        · unfold walk_pass
          simp only [hg, h1, h2]
        · simp only [State.called, memcpy_reads_append, memcpy_reads, hreads0,
            List.append_assoc, List.cons_append, List.nil_append]
        · constructor
          · intro h
            exact absurd (h.2 (e.buf + fp % 4096 + wordsize, wordsize) (by simp)) hnot
          · intro h; exact absurd (harith.2 h).2 hnot
        · intro h; exact absurd (harith.2 h).2 hnot
      | some w2 =>
        refine ⟨[(e.buf + fp % 4096, wordsize), (e.buf + fp % 4096 + wordsize, wordsize)],
          ((((guest_to_host xc vcpu fp st).2.fprintf [hex retaddr]).called
          (Call.memcpy (e.buf + fp % 4096) wordsize)).called
          (Call.memcpy (e.buf + fp % 4096 + wordsize) wordsize)),
          Or.inr ⟨(store_low fp wordsize w1, store_low retaddr wordsize w2), ?_⟩, ?_,
          Or.inr rfl, ?_, ?_⟩
        · unfold walk_pass
          simp only [hg, h1, h2]
        · simp only [State.called, memcpy_reads_append, memcpy_reads, hreads0,
            List.append_assoc, List.cons_append, List.nil_append]
        · rw [← harith]
          constructor
          · intro h
            exact ⟨h.2 (e.buf + fp % 4096, wordsize) (by simp),
              h.2 (e.buf + fp % 4096 + wordsize, wordsize) (by simp)⟩
          · intro h
            refine ⟨rfl, ?_⟩
            intro r hr
            simp only [List.mem_cons, List.mem_singleton, List.not_mem_nil, or_false] at hr
            rcases hr with hr | hr <;> subst hr
            · exact h.1
            · exact h.2
        · intro _
          exact ⟨(store_low fp wordsize w1, store_low retaddr wordsize w2),
            by unfold walk_pass; simp only [hg, h1, h2]⟩

theorem adjacent_guest_readable (a : Nat) (h1 : 0x20000 ≤ a)
    (h2 : a < 0x20000 + XC_PAGE_SIZE) : (adjacent_guest.host a).isSome := by
  unfold XC_PAGE_SIZE at h2
  have c1 : ¬ (0x10000 ≤ a ∧ a < 0x11000) := by omega
  have c2 : ¬ (0x11000 ≤ a ∧ a < 0x12000) := by omega
  have c3 : 0x20000 ≤ a ∧ a < 0x21000 := by omega
  simp only [adjacent_guest]
  rw [if_neg c1, if_neg c2, if_pos c3]
  rfl

/-- The witness of C10: in the guest with readable memory around its buffers,
the first access to the page of the frame pointer 0x8010 maps it at 0x20000;
the pointer returned is 0x20010 and the two 4-byte reads lie inside the
buffer, as 0x10 ≤ 4096 - 8. -/
theorem frame_reads_inside_iff_witness :
    (guest_to_host adjacent_guest 0 0x8010 State.init).1 = 0x20000 + 0x8010 % 4096 ∧
    inside_buffer 0x20000 (0x20000 + 0x8010 % 4096) 4 ∧
    inside_buffer 0x20000 (0x20000 + 0x8010 % 4096 + 4) 4 :=
  ⟨(frame_reads_inside_iff adjacent_guest 0 0x8010 4 0x400123 State.init
      ⟨0x8000, 108, 0x20000⟩ (Or.inl rfl) (by decide) (by decide) (by decide)
      adjacent_guest_readable).2.1,
   ((frame_reads_inside_iff adjacent_guest 0 0x8010 4 0x400123 State.init
      ⟨0x8000, 108, 0x20000⟩ (Or.inl rfl) (by decide) (by decide) (by decide)
      adjacent_guest_readable).2.2.1.2 (by decide)).1,
   ((frame_reads_inside_iff adjacent_guest 0 0x8010 4 0x400123 State.init
      ⟨0x8000, 108, 0x20000⟩ (Or.inl rfl) (by decide) (by decide) (by decide)
      adjacent_guest_readable).2.2.1.2 (by decide)).2⟩

/-! ## Theorems: the walk of a well-formed frame chain -/

theorem guest_word_lt (mem : Nat → Nat) : ∀ (n a : Nat), guest_word mem a n < 2 ^ (8 * n) := by
  intro n
  induction n with
  | zero => intro a; simp [guest_word]
  | succ n ih =>
    intro a
    have h := ih (a + 1)
    have hb : mem a % 256 < 256 := Nat.mod_lt _ (by decide)
    have e : 2 ^ (8 * (n + 1)) = 256 * 2 ^ (8 * n) := by
      rw [Nat.mul_succ, Nat.pow_add]; norm_num [Nat.mul_comm]
    unfold guest_word
    rw [e]
    nlinarith

theorem load_eq_guest_word (host : Nat → Option Nat) (mem : Nat → Nat) :
    ∀ (n p a : Nat), p ≠ 0 → (∀ k, k < n → host (p + k) = some (mem (a + k))) →
      load host p n = some (guest_word mem a n) := by
  intro n
  induction n with
  | zero => intro p a _ _; rfl
  | succ n ih =>
    intro p a hp h
    have h0 := h 0 (Nat.succ_pos _)
    have hrest := ih (p + 1) (a + 1) (by omega) (fun k hk => by
      have := h (k + 1) (by omega)
      have e1 : p + 1 + k = p + (k + 1) := by omega
      have e2 : a + 1 + k = a + (k + 1) := by omega
      rw [e1, e2]; exact this)
    unfold load guest_word
    rw [if_neg hp]
    simp only [Nat.add_zero] at h0
    rw [h0, hrest]

theorem store_low_of_lt (x wordsize v : Nat) (h : x < 2 ^ (8 * wordsize)) :
    store_low x wordsize v = v := by
  unfold store_low
  rw [Nat.div_eq_of_lt h]
  simp

theorem find_page_append_other (b : Nat) (e : mapped_page) (he : e.base ≠ b) :
    ∀ (l : List mapped_page), find_page b l = none → find_page b (l ++ [e]) = none := by
  intro l
  induction l with
  | nil => intro _; simp [find_page, Ne.symm he]
  | cons x rest ih =>
    intro h
    simp only [List.cons_append, find_page] at h ⊢
    by_cases hb : b = x.base
    · rw [if_pos hb] at h; cases h
    · rw [if_neg hb] at h ⊢; exact ih h

/-- A page that resolves still resolves, to the same bytes, after any call of
`guest_to_host` by the same vcpu. -/
theorem resolves_after (xc : Xen) (vcpu : Nat) (mem : Nat → Nat) (st : State) (gaddr b : Nat)
    (h : resolves xc vcpu mem st.map_head b) :
    resolves xc vcpu mem (guest_to_host xc vcpu gaddr st).2.map_head b := by
  obtain ⟨buf, hbuf, hbytes, hcase⟩ := h
  refine ⟨buf, hbuf, hbytes, ?_⟩
  rcases hcase with ⟨e, he, heb⟩ | ⟨hnone, hmal, hmap⟩
  · exact Or.inl ⟨e, guest_to_host_keeps xc vcpu gaddr st b e he, heb⟩
  · rcases guest_to_host_map_head xc vcpu gaddr st with h1 | ⟨hn, e', he', _, _, h1⟩
    · rw [h1]; exact Or.inr ⟨hnone, hmal, hmap⟩
    · by_cases hb : page_base gaddr = b
      · left
        have hm := guest_to_host_miss xc vcpu gaddr st hn
        rw [hb, hmap] at hm
        simp only [hmal, Bool.true_eq_false, if_false, if_neg hbuf] at hm
        rw [hm]
        exact ⟨_, find_page_append_new b _ rfl _ hnone, rfl⟩
      · right
        rw [h1]
        exact ⟨find_page_append_other b e' (by rw [he']; exact hb) _ hnone, hmal, hmap⟩

/-- For an address whose page resolves, `guest_to_host` returns a pointer
into a buffer that holds the bytes of the page. -/
theorem guest_to_host_of_resolves (xc : Xen) (vcpu : Nat) (mem : Nat → Nat) (st : State)
    (gaddr : Nat) (h : resolves xc vcpu mem st.map_head (page_base gaddr)) :
    ∃ buf, buf ≠ 0 ∧
      (∀ k, k < XC_PAGE_SIZE → xc.host (buf + k) = some (mem (page_base gaddr + k))) ∧
      (guest_to_host xc vcpu gaddr st).1 = buf + page_offset gaddr := by
  obtain ⟨buf, hbuf, hbytes, hcase⟩ := h
  refine ⟨buf, hbuf, hbytes, ?_⟩
  rcases hcase with ⟨e, he, heb⟩ | ⟨hnone, hmal, hmap⟩
  · rw [guest_to_host_hit xc vcpu gaddr st e he, heb]
  · rw [guest_to_host_miss xc vcpu gaddr st hnone, hmap]
    simp only [hmal, Bool.true_eq_false, if_false, if_neg hbuf]

/-- The two words of a frame that does not reach past the end of its page are
read from guest memory. -/
theorem frame_words (xc : Xen) (mem : Nat → Nat) (buf f wordsize : Nat) (hbuf : buf ≠ 0)
    (hbytes : ∀ k, k < XC_PAGE_SIZE → xc.host (buf + k) = some (mem (page_base f + k)))
    (hin : f % 4096 + 2 * wordsize ≤ 4096) :
    load xc.host (buf + page_offset f) wordsize = some (guest_word mem f wordsize) ∧
    load xc.host (buf + page_offset f + wordsize) wordsize
      = some (guest_word mem (f + wordsize) wordsize) := by
  have hf : page_base f + page_offset f = f := by
    unfold page_base page_offset XC_PAGE_SIZE
    have := Nat.div_add_mod f 4096
    omega
  have ho : page_offset f = f % 4096 := rfl
  constructor
  · apply load_eq_guest_word _ _ _ _ _ (by omega)
    intro k hk
    have := hbytes (page_offset f + k) (by unfold XC_PAGE_SIZE; omega)
    have e1 : buf + page_offset f + k = buf + (page_offset f + k) := by omega
    have e2 : f + k = page_base f + (page_offset f + k) := by omega
    rw [e1, e2]; exact this
  · apply load_eq_guest_word _ _ _ _ _ (by omega)
    intro k hk
    have := hbytes (page_offset f + wordsize + k) (by unfold XC_PAGE_SIZE; omega)
    have e1 : buf + page_offset f + wordsize + k = buf + (page_offset f + wordsize + k) := by
      omega
    have e2 : f + wordsize + k = page_base f + (page_offset f + wordsize + k) := by omega
    rw [e1, e2]; exact this

/-- The loop of `walk_stack` on a well-formed chain of `N` frames none of
which reaches past the end of its page and all of whose pages resolve: given
a budget of at least `N` steps it returns, having written `N` address lines:
the pending return address and the return addresses of all frames but the
last. -/
theorem walk_loop_chain (xc : Xen) (vcpu wordsize : Nat) (mem : Nat → Nat) :
    ∀ (frames : List (Nat × Nat)) (fuel fp retaddr : Nat) (st : State),
      frame_chain mem wordsize fp frames →
      (∀ f ∈ frames, f.1 % 4096 + 2 * wordsize ≤ 4096 ∧
        resolves xc vcpu mem st.map_head (page_base f.1)) →
      fp < 2 ^ (8 * wordsize) → retaddr < 2 ^ (8 * wordsize) → frames.length ≤ fuel →
      ∃ st', walk_loop xc vcpu wordsize fuel fp retaddr st = Run.ret () st' ∧
        st'.file = st.file
          ++ ((retaddr :: frames.map Prod.snd).take frames.length).map hex := by
  intro frames
  induction frames with
  | nil =>
    intro fuel fp retaddr st hc _ _ _ _
    have h0 : fp = 0 := hc
    refine ⟨st, ?_, by simp⟩
    cases fuel <;> simp [walk_loop, h0]
  | cons fr rest ih =>
    intro fuel fp retaddr st hc hres hfp hra hfuel
    obtain ⟨f, r⟩ := fr
    obtain ⟨hf, hne, hr, hrest⟩ := hc
    subst hf
    obtain ⟨hin, hpage⟩ := hres (fp, r) (List.mem_cons_self _ _)
    obtain ⟨buf, hbuf, hbytes, hg⟩ := guest_to_host_of_resolves xc vcpu mem st fp hpage
    obtain ⟨l1, l2⟩ := frame_words xc mem buf fp wordsize hbuf hbytes hin
    cases fuel with
    | zero => simp at hfuel
    | succ n =>
      have hres' : ∀ g ∈ rest, g.1 % 4096 + 2 * wordsize ≤ 4096 ∧
          resolves xc vcpu mem
            ((((guest_to_host xc vcpu fp st).2.fprintf [hex retaddr]).called
              (Call.memcpy (buf + page_offset fp) wordsize)).called
              (Call.memcpy (buf + page_offset fp + wordsize) wordsize)).map_head
            (page_base g.1) := by
        intro g hgm
        obtain ⟨h1, h2⟩ := hres g (List.mem_cons_of_mem _ hgm)
        exact ⟨h1, resolves_after xc vcpu mem st fp _ h2⟩
      obtain ⟨st', hw, hfile⟩ := ih n (guest_word mem fp wordsize) r
        ((((guest_to_host xc vcpu fp st).2.fprintf [hex retaddr]).called
          (Call.memcpy (buf + page_offset fp) wordsize)).called
          (Call.memcpy (buf + page_offset fp + wordsize) wordsize)) hrest hres'
        (guest_word_lt mem wordsize fp) (by rw [← hr]; exact guest_word_lt mem wordsize _)
        (by simpa using hfuel)
      refine ⟨st', ?_, ?_⟩
      · unfold walk_loop
        rw [if_neg hne]
        unfold walk_pass
        simp only [hg, l1, l2, hr, store_low_of_lt _ _ _ hfp, store_low_of_lt _ _ _ hra]
        exact hw
      · rw [hfile]
        have hfile0 : ((((guest_to_host xc vcpu fp st).2.fprintf [hex retaddr]).called
            (Call.memcpy (buf + page_offset fp) wordsize)).called
            (Call.memcpy (buf + page_offset fp + wordsize) wordsize)).file
            = st.file ++ [hex retaddr] := by
          have : (guest_to_host xc vcpu fp st).2.file = st.file := by
            rcases h : find_page (page_base fp) st.map_head with _ | e
            · rw [guest_to_host_miss xc vcpu fp st h]
              split
              · rfl
              · split <;> rfl
            · rw [guest_to_host_hit xc vcpu fp st e h]
          simp only [State.fprintf, State.called, this]
        rw [hfile0]
        simp [List.take]

/-- The walk of a well-formed chain: for width 4 or 8, a vcpu whose context
read succeeds, and guest memory in which the chain from the frame pointer has
`N` frames, none reaching past the end of its page and all on pages that
resolve, `walk_stack` returns within a budget of `N` steps and appends to the
file exactly the `N` address lines `ip, r1, .., r(N-1)`, the line `1` and a
blank line. -/
theorem walk_stack_chain (fuel : Nat) (xc : Xen) (vcpu wordsize : Nat) (mem : Nat → Nat)
    (frames : List (Nat × Nat)) (st : State) (hw : wordsize = 4 ∨ wordsize = 8)
    (hctx : 0 ≤ (xc.vcpu_getcontext vcpu).1)
    (hchain : frame_chain mem wordsize
      (frame_pointer (xc.vcpu_getcontext vcpu).2 wordsize) frames)
    (hres : ∀ f ∈ frames, f.1 % 4096 + 2 * wordsize ≤ 4096 ∧
      resolves xc vcpu mem st.map_head (page_base f.1))
    (hfuel : frames.length ≤ fuel) :
    ∃ st', walk_stack fuel xc vcpu wordsize st = Run.ret () st' ∧
      st'.file = st.file
        ++ ((instruction_pointer (xc.vcpu_getcontext vcpu).2 wordsize
              :: frames.map Prod.snd).take frames.length).map hex
        ++ ["1", ""] := by
  have hlt : ∀ (a b : Nat), (if wordsize = 4 then a % 2 ^ 32 else b % 2 ^ 64)
      < 2 ^ (8 * wordsize) := by
    intro a b
    rcases hw with h | h
    · rw [if_pos h, h]; exact Nat.mod_lt _ (by norm_num)
    · rw [if_neg (by omega), h]; exact Nat.mod_lt _ (by norm_num)
  obtain ⟨st', h1, h2⟩ := walk_loop_chain xc vcpu wordsize mem frames fuel
    (frame_pointer (xc.vcpu_getcontext vcpu).2 wordsize)
    (instruction_pointer (xc.vcpu_getcontext vcpu).2 wordsize)
    (st.called (Call.xc_vcpu_getcontext vcpu)) hchain hres (hlt _ _) (hlt _ _) hfuel
  refine ⟨st'.fprintf ["1", ""], ?_, ?_⟩
  · unfold walk_stack
    simp only [not_lt.mpr hctx, if_false, h1]
  · simp only [State.fprintf, h2, State.called]

/-- The chain guest satisfies the conditions of `walk_stack_chain`: its three
frames are unwound to the three address lines 0x400123, 0x401000, 0x402000
and the terminator. -/
theorem walk_stack_chain_witness :
    ∃ st', walk_stack 3 chain_guest 0 8 State.init = Run.ret () st' ∧
      st'.file = ["0x400123", "0x401000", "0x402000", "1", ""] := by
  obtain ⟨st', h1, h2⟩ := walk_stack_chain 3 chain_guest 0 8 chain_memory
    [(0x7000, 0x401000), (0x7020, 0x402000), (0x7040, 0x403000)] State.init
    (Or.inr rfl) (by decide) (by simp only [frame_chain]; decide)
    (by
      have hp : resolves chain_guest 0 chain_memory State.init.map_head 0x7000 := by
        refine ⟨0x10000, by decide, ?_, Or.inr ⟨rfl, rfl, rfl⟩⟩
        intro k hk
        unfold XC_PAGE_SIZE at hk
        have hc : 0x10000 ≤ 0x10000 + k ∧ 0x10000 + k < 0x11000 := by omega
        simp only [chain_guest]
        have e : 0x10000 + k - 0x10000 + 0x7000 = 0x7000 + k := by omega
        rw [if_pos hc, e]
      intro f hf
      simp only [List.mem_cons, List.mem_singleton, List.not_mem_nil, or_false] at hf
      rcases hf with h | h | h <;> subst h <;> exact ⟨by decide, hp⟩)
    (by decide)
  refine ⟨st', h1, ?_⟩
  rw [h2]
  decide

end Uniprof
